import Mathlib

/-!
# hurrdurr: configuration loader, merge engine, bot validator and dry-run client

A shallow embedding of `internal/util/util.go` and `internal/api/dryrun.go`.

Conventions of the embedding:

* a Go `string` and a Go `[]byte` holding text are Lean `String`s;
* a Go slice is a `List` (a nil slice and an empty slice are both `[]`);
* a Go map is a `GoMap`: either the nil map or an allocated finite map with
  unique keys, whose entry list stands for one iteration order of `range`;
* a Go `error` is an `Option String`: `none` is `nil`, `some msg` is an error
  whose `Error()` text is `msg`;
* a Go function that can panic returns an `Option`, `none` being the panic;
* the standard library and third-party calls the source makes
  (`ioutil.ReadFile`, `md5`/`hex`, `yaml.UnmarshalStrict`, `regexp`) are
  parameters gathered in `Env` and `RegexpLib`; `logrus.Info` is not modelled.
  For the claims on unrecognized keys the decoder parameter is instantiated
  with `yamlUnmarshal`, a model of the strict decoding of mapping keys.
-/

namespace Hurrdurr

/-! ## Go strings and `fmt.Sprintf` -/

/-- Expansion of a format over its operands, for the fragment of `fmt` verbs
the source uses: `%s` consumes the next operand, `%%` is a literal percent
sign, every other character is copied. A `%s` without operand prints Go's
`%!s(MISSING)`; no call in the source has missing or surplus operands. -/
def formatVerbs : List Char → List String → List Char
  | [], _ => []
  | [c], _ => [c]
  | c :: d :: rest, args =>
    if c = '%' ∧ d = 's' then
      match args with
      | a :: as => a.data ++ formatVerbs rest as
      | [] => "%!s(MISSING)".data ++ formatVerbs rest []
    else if c = '%' ∧ d = '%' then '%' :: formatVerbs rest args
    else c :: formatVerbs (d :: rest) args

/-- Go's `fmt.Sprintf(format, args...)`, every operand already rendered as
the text `%s` prints for it. -/
def Sprintf (format : String) (args : List String) : String :=
  ⟨formatVerbs format.data args⟩

/-- Go's `fmt.Errorf(format, args...)`: an error carrying the formatted text. -/
def Errorf (format : String) (args : List String) : Option String :=
  some (Sprintf format args)

/-- Substring test on Go strings: `sub` occurs somewhere inside `s`. -/
def Contains (s sub : String) : Prop := sub.data <:+: s.data

instance (s sub : String) : Decidable (Contains s sub) := by
  unfold Contains; infer_instance

/-! ## Go maps -/

/-- A Go `map[string]V`: the nil map, or an allocated map. The entry list of
an allocated map has unique keys; its order is one possible `range` order. -/
inductive GoMap (V : Type) where
  | nil : GoMap V
  | alloc (m : AList (fun _ : String => V)) : GoMap V

namespace GoMap

variable {V : Type}

/-- Go's `make(map[string]V, 0)`. -/
def make : GoMap V := .alloc ∅

/-- Whether the map is allocated (not nil). -/
def isAlloc : GoMap V → Bool
  | .nil => false
  | .alloc _ => true

/-- Go's `v, ok := m[k]`: reading a nil map finds nothing. -/
def get? : GoMap V → String → Option V
  | .nil, _ => none
  | .alloc m, k => m.lookup k

/-- The key/value pairs a `for k, v := range m` loop visits, in one order;
ranging over a nil map visits nothing. -/
def range : GoMap V → List (Sigma fun _ : String => V)
  | .nil => []
  | .alloc m => m.entries

/-- Go's `m[k] = v`; on a nil map the statement panics (`none`). -/
def assign : GoMap V → String → V → Option (GoMap V)
  | .nil, _, _ => none
  | .alloc m, k, v => some (.alloc (m.insert k v))

end GoMap

/-! ## Data model -/

/-- Modelled from the spec: the `internal.Level` type is declared outside the
given sources; the spec gives it as an ordered enumeration of access grades,
guest < reporter < developer < maintainer < owner. -/
inductive Level where
  | Guest | Reporter | Developer | Maintainer | Owner
  deriving DecidableEq, Repr

/-- Modelled from the spec: the text `%s` prints for a `Level` (its `String()`
method), which the spec writes in lower case (`maintainer`). -/
def Level.String : Level → String
  | .Guest => "guest"
  | .Reporter => "reporter"
  | .Developer => "developer"
  | .Maintainer => "maintainer"
  | .Owner => "owner"

/-- Modelled from the spec: `internal.Bot`, a bot descriptor with the two
fields the source reads, `Username` and `Email`. -/
structure Bot where
  Username : String
  Email : String
  deriving DecidableEq, Repr

/-- Modelled from the spec: `internal.Users`, the `admins` and `blocked`
username sequences. -/
structure Users where
  Admins : List String
  Blocked : List String
  deriving DecidableEq, Repr

/-- Modelled from the spec: `internal.Config`, with the fields the source
reads and writes. The ACL type `internal.Acls` is never inspected by the
source and is a parameter. -/
structure Config (Acls : Type) where
  Groups : GoMap Acls
  Projects : GoMap Acls
  Users : Users
  Bots : List Bot
  Files : List String

/-- The Go zero value `internal.Config{}`: nil maps and nil slices. -/
def Config.zero {Acls : Type} : Config Acls :=
  { Groups := .nil, Projects := .nil, Users := { Admins := [], Blocked := [] },
    Bots := [], Files := [] }

/-! ## `mergeConfigs` -/

/-- The loop `for k, v := range src { dst[k] = v }`, over the pairs `range`
yields; it panics at the first assignment when `dst` is the nil map. -/
def rangeAssign {V : Type} (dst : GoMap V) :
    List (Sigma fun _ : String => V) → Option (GoMap V)
  | [] => some dst
  | e :: rest =>
    match dst.assign e.1 e.2 with
    | none => none
    | some d => rangeAssign d rest

/-- The loop `for _, u := range src { dst = append(dst, u) }`. -/
def appendEach {α : Type} (dst : List α) : List α → List α
  | [] => dst
  | u :: rest => appendEach (dst ++ [u]) rest

/-- The function `mergeConfigs(c *internal.Config, cc internal.Config)`: the
returned configuration is `*c` after the call, `none` if the call panics. -/
def mergeConfigs {Acls : Type} (c cc : Config Acls) : Option (Config Acls) :=
  match rangeAssign c.Groups cc.Groups.range with
  | none => none
  | some groups =>
    match rangeAssign c.Projects cc.Projects.range with
    | none => none
    | some projects =>
      some { Groups := groups
             Projects := projects
             Users := { Admins := appendEach c.Users.Admins cc.Users.Admins
                        Blocked := appendEach c.Users.Blocked cc.Users.Blocked }
             Bots := appendEach c.Bots cc.Bots
             Files := c.Files }

/-! ## `loadFile` and `LoadConfig` -/

/-- Go's `unicode.IsSpace`: the Latin-1 spaces `\t \n \v \f \r`, space,
U+0085, U+00A0, and the other code points of category `White_Space`. -/
def isSpace (c : Char) : Bool :=
  let n := c.toNat
  (9 ≤ n ∧ n ≤ 13) ∨ n = 0x20 ∨ n = 0x85 ∨ n = 0xA0 ∨ n = 0x1680 ∨
  (0x2000 ≤ n ∧ n ≤ 0x200A) ∨ n = 0x2028 ∨ n = 0x2029 ∨ n = 0x202F ∨
  n = 0x205F ∨ n = 0x3000

/-- Go's `strings.TrimSpace`: the string without its leading and trailing
white space. -/
def TrimSpace (s : String) : String :=
  ⟨(s.data.dropWhile isSpace).rdropWhile isSpace⟩

/-- The calls `loadFile` makes outside the repository. -/
structure Env (Acls : Type) where
  /-- The call `ioutil.ReadFile`: the file content, or the error text. -/
  ReadFile : String → Except String String
  /-- The hexadecimal encoding of the MD5 hash of a content, the value of
  `hex.EncodeToString(m.Sum(nil))` after `m.Write(content)`. -/
  md5hex : String → String
  /-- The call `yaml.UnmarshalStrict(content, &c)` on the zero configuration:
  the configuration it leaves in `c` and the error it returns. -/
  UnmarshalStrict : String → Config Acls × Option String

/-- What a load returns, with the paths it passed to `ioutil.ReadFile`, in
call order. -/
structure Loaded (Acls : Type) where
  reads : List String
  config : Config Acls
  err : Option String

/-- The body of `if checksumCheck { ... }` in `loadFile`: the paths read and
the error the block returns with, `none` when it falls through. -/
def checksumBlock {Acls : Type} (env : Env Acls) (filename content : String) :
    List String × Option String :=
  let sidecar := Sprintf "%s.md5" [filename]
  match env.ReadFile sidecar with
  | .error err =>
    ([sidecar], Errorf "failed to read checksum configuration file: %s" [err])
  | .ok md5hash =>
    let calculatedMD5 := env.md5hex content
    if TrimSpace md5hash ≠ calculatedMD5 then
      ([sidecar],
        Errorf "configuration file calculated md5 '%s' does not match the provided md5 '%s'"
          [calculatedMD5, md5hash])
    else ([sidecar], none)

/-- The function `loadFile(filename, checksumCheck)`. -/
def loadFile {Acls : Type} (env : Env Acls) (filename : String) (checksumCheck : Bool) :
    Loaded Acls :=
  match env.ReadFile filename with
  | .error err =>
    ⟨[filename], Config.zero, Errorf "failed to load state file %s: %s" [filename, err]⟩
  | .ok content =>
    let chk := if checksumCheck then checksumBlock env filename content else ([], none)
    match chk.2 with
    | some e => ⟨filename :: chk.1, Config.zero, some e⟩
    | none =>
      let parsed := env.UnmarshalStrict content
      match parsed.2 with
      | some err =>
        ⟨filename :: chk.1, parsed.1,
          Errorf "failed to unmarshal state file %s: %s" [filename, err]⟩
      | none => ⟨filename :: chk.1, parsed.1, none⟩

/-- The configuration `LoadConfig` starts from: allocated empty maps and
empty slices. -/
def initConfig {Acls : Type} : Config Acls :=
  { Groups := GoMap.make, Projects := GoMap.make,
    Users := { Admins := [], Blocked := [] }, Bots := [], Files := [] }

/-- The loop `for _, f := range c.Files { ... }` of `LoadConfig`, over the
paths still to load, `c` being the aggregate so far. -/
def loadListed {Acls : Type} (env : Env Acls) (checksumCheck : Bool) :
    List String → Config Acls → Option (Loaded Acls)
  | [], c => some ⟨[], c, none⟩
  | f :: rest, c =>
    let l := loadFile env f checksumCheck
    match l.err with
    | some err => some ⟨l.reads, c, Errorf "failed to load file %s: %s" [f, err]⟩
    | none =>
      match mergeConfigs c l.config with
      | none => none
      | some c1 =>
        match loadListed env checksumCheck rest c1 with
        | none => none
        | some r => some ⟨l.reads ++ r.reads, r.config, r.err⟩

/-- The function `LoadConfig(filename, checksumCheck)`; `none` stands for a
panic. -/
def LoadConfig {Acls : Type} (env : Env Acls) (filename : String) (checksumCheck : Bool) :
    Option (Loaded Acls) :=
  let l := loadFile env filename checksumCheck
  match l.err with
  | some err => some ⟨l.reads, initConfig, some err⟩
  | none =>
    match mergeConfigs initConfig l.config with
    | none => none
    | some c1 =>
      let c2 := { c1 with Files := l.config.Files }
      match loadListed env checksumCheck c2.Files c2 with
      | none => none
      | some r => some ⟨l.reads ++ r.reads, r.config, r.err⟩

/-! ## `ValidateBots` -/

/-- The part of Go's `regexp` package `ValidateBots` calls. -/
structure RegexpLib where
  /-- Compiled expressions, `*regexp.Regexp`. -/
  Regexp : Type
  /-- The call `regexp.Compile`: the compiled expression, or the error text. -/
  Compile : String → Except String Regexp
  /-- The method `(*Regexp).MatchString`. -/
  MatchString : Regexp → String → Bool

/-- The loop `for _, b := range bots { ... }` of `ValidateBots`. -/
def validateEach (lib : RegexpLib) (r : lib.Regexp) : List Bot → Option String
  | [] => none
  | b :: rest =>
    if !lib.MatchString r b.Username then
      Errorf "invalid bot username %s" [b.Username]
    else if b.Email = "" then
      Errorf "bot %s has an empty email" [b.Username]
    else validateEach lib r rest

/-- The function `ValidateBots(bots, usernameRegex)`. -/
def ValidateBots (lib : RegexpLib) (bots : List Bot) (usernameRegex : String) :
    Option String :=
  match lib.Compile usernameRegex with
  | .error err => Errorf "invalid bot username regex validator: %s" [err]
  | .ok r => validateEach lib r bots

/-! ## `DryRunAPIClient` -/

/-- A type with a `String() string` method, which is what `%s` prints. -/
class Stringer (L : Type) where
  /-- The method `String()`. -/
  String : L → String

instance : Stringer Level := ⟨Level.String⟩

/-- The struct `DryRunAPIClient`. Its field `Append func(string)` is nil
(`none`) or a function acting on the state `σ` of whatever it records into. -/
structure DryRunAPIClient (σ : Type) where
  Append : Option (String → σ → σ)

/-- A dry-run call returns the sink state after the call and the error; a
call through a nil `Append` panics (`none`). -/
abbrev DryRunResult (σ : Type) := Option (σ × Option String)

namespace DryRunAPIClient

variable {σ L : Type} [Stringer L]

/-- The statement `m.Append(msg)` followed by `return nil`. -/
def record (m : DryRunAPIClient σ) (msg : String) (st : σ) : DryRunResult σ :=
  match m.Append with
  | none => none
  | some f => some (f msg st, none)

/-- The method `AddGroupMembership`. -/
def AddGroupMembership (m : DryRunAPIClient σ) (username group : String) (level : L)
    (st : σ) : DryRunResult σ :=
  m.record (Sprintf "add '%s' to '%s' at level '%s'"
    [username, group, Stringer.String level]) st

/-- The method `ChangeGroupMembership`. -/
def ChangeGroupMembership (m : DryRunAPIClient σ) (username group : String) (level : L)
    (st : σ) : DryRunResult σ :=
  m.record (Sprintf "change '%s' in '%s' at level '%s'"
    [username, group, Stringer.String level]) st

/-- The method `RemoveGroupMembership`. -/
def RemoveGroupMembership (m : DryRunAPIClient σ) (username group : String)
    (st : σ) : DryRunResult σ :=
  m.record (Sprintf "remove '%s' from '%s'" [username, group]) st

/-- The method `AddProjectSharing`. -/
def AddProjectSharing (m : DryRunAPIClient σ) (project group : String) (level : L)
    (st : σ) : DryRunResult σ :=
  m.record (Sprintf "share project '%s' with group '%s' at level '%s'"
    [project, group, Stringer.String level]) st

/-- The method `RemoveProjectSharing`. -/
def RemoveProjectSharing (m : DryRunAPIClient σ) (project group : String)
    (st : σ) : DryRunResult σ :=
  m.record (Sprintf "remove project sharing from '%s' with group '%s'" [project, group]) st

/-- A client whose sink appends each message to a log. -/
def logging : DryRunAPIClient (List String) :=
  { Append := some (fun msg log => log ++ [msg]) }

end DryRunAPIClient

/-! ## Example values -/

/-- An aggregate with two groups and one admin; ACLs are plain labels. -/
def exampleAggregate : Config String :=
  { Groups := .alloc ((AList.singleton "dev" "old-dev").insert "ops" "old-ops")
    Projects := GoMap.make
    Users := { Admins := ["root"], Blocked := [] }
    Bots := [⟨"bot1", "bot1@example.com"⟩]
    Files := ["a.yml"] }

/-- An incoming configuration that sets `dev` again and adds `qa`, and lists
the admin `root` once more. -/
def exampleIncoming : Config String :=
  { Groups := .alloc ((AList.singleton "dev" "new-dev").insert "qa" "new-qa")
    Projects := .nil
    Users := { Admins := ["root", "alice"], Blocked := ["mallory"] }
    Bots := [⟨"bot2", "bot2@example.com"⟩]
    Files := ["ignored.yml"] }

/-- The paths a run that loads every file of `paths` passes to
`ioutil.ReadFile`: each file, followed by its `.md5` sidecar when checksums
are verified. -/
def pathsRead (checksumCheck : Bool) (paths : List String) : List String :=
  paths.flatMap fun f => if checksumCheck then [f, f ++ ".md5"] else [f]

/-- Two configurations that agree on every field but `Files`. -/
def sameButFiles {Acls : Type} (a b : Config Acls) : Prop :=
  a.Groups = b.Groups ∧ a.Projects = b.Projects ∧ a.Users = b.Users ∧ a.Bots = b.Bots

/-- The files of the example file system. `root.yml` lists `a.yml` and
`b.yml`; every configuration file has a sidecar holding its MD5 digest
(`a.yml.md5` with surrounding white space), except that `upper.yml.md5` holds
the digest in upper case and `bad.yml.md5` holds another file's digest. A
path that is not listed does not exist. -/
def exampleReadFile (path : String) : Except String String :=
  if path = "root.yml" then .ok "files: [a.yml, b.yml]"
  else if path = "root.yml.md5" then .ok "595f426b000c1d269a02825ad28c7328\n"
  else if path = "a.yml" then .ok "groups: {dev: a, qa: a}"
  else if path = "a.yml.md5" then .ok "  411ee739b5eb5ba7a470faeb65167296\n"
  else if path = "b.yml" then .ok "groups: {dev: b}"
  else if path = "b.yml.md5" then .ok "9e82319531a079ec46607f304bdc281f"
  else if path = "upper.yml" then .ok "groups: {dev: b}"
  else if path = "upper.yml.md5" then .ok "9E82319531A079EC46607F304BDC281F"
  else if path = "bad.yml" then .ok "files: [a.yml, b.yml]"
  else if path = "bad.yml.md5" then .ok "9e82319531a079ec46607f304bdc281f"
  else .error (Sprintf "open %s: no such file or directory" [path])

/-- The MD5 digests, in hexadecimal, of the contents of the example files. -/
def exampleMd5hex (content : String) : String :=
  if content = "files: [a.yml, b.yml]" then "595f426b000c1d269a02825ad28c7328"
  else if content = "groups: {dev: a, qa: a}" then "411ee739b5eb5ba7a470faeb65167296"
  else if content = "groups: {dev: b}" then "9e82319531a079ec46607f304bdc281f"
  else "d41d8cd98f00b204e9800998ecf8427e"

/-- The decoding of the contents of the example files, ACLs being plain
labels; any other content is rejected. -/
def exampleUnmarshal (content : String) : Config String × Option String :=
  if content = "files: [a.yml, b.yml]" then
    ({ Config.zero with Files := ["a.yml", "b.yml"] }, none)
  else if content = "groups: {dev: a, qa: a}" then
    ({ Config.zero with
        Groups := .alloc ((AList.singleton "dev" "a").insert "qa" "a") }, none)
  else if content = "groups: {dev: b}" then
    ({ Config.zero with Groups := .alloc (AList.singleton "dev" "b") }, none)
  else (Config.zero, some "yaml: unmarshal errors")

/-- The example environment. -/
def exampleEnv : Env String :=
  { ReadFile := exampleReadFile, md5hex := exampleMd5hex, UnmarshalStrict := exampleUnmarshal }

/-- The example environment, except that every decoded file other than the
root content declares a `files` list of its own. -/
def exampleEnvNested : Env String :=
  { exampleEnv with
    UnmarshalStrict := fun content =>
      let parsed := exampleUnmarshal content
      if content = "files: [a.yml, b.yml]" then parsed
      else ({ parsed.1 with Files := ["root.yml", "deeper.yml"] }, parsed.2) }

/-- The sixteen digits `hex.EncodeToString` writes. -/
def hexDigits : List Char := "0123456789abcdef".data

/-- The shape of an MD5 digest in hexadecimal: 32 digits out of `hexDigits`. -/
def isHexDigest (h : String) : Bool :=
  h.data.length = 32 ∧ ∀ x ∈ h.data, x ∈ hexDigits

/-- A text written in upper case. -/
def upperCase (s : String) : String := ⟨s.data.map Char.toUpper⟩

/-- The regular expression `[0-9]`. -/
def digitExpr : RegularExpression Char :=
  "123456789".data.foldl (fun e c => e + RegularExpression.char c) (RegularExpression.char '0')

/-- The regular expression `bot[0-9]+`, which `^bot[0-9]+$` matches a whole
text against. -/
def botExpr : RegularExpression Char :=
  RegularExpression.char 'b' * RegularExpression.char 'o' * RegularExpression.char 't' *
    digitExpr * RegularExpression.star digitExpr

/-- An instance of the `regexp` calls that knows the pattern `^bot[0-9]+$`,
compiled to `botExpr` and matched against the whole text, and reports an
error for every other pattern. -/
def exampleRegexp : RegexpLib :=
  { Regexp := RegularExpression Char
    Compile := fun pattern =>
      if pattern = "^bot[0-9]+$" then .ok botExpr
      else .error (Sprintf "error parsing regexp: unsupported pattern: %s" [pattern])
    MatchString := fun r s => r.rmatch s.data }

/-- One call of the `APIClient` interface that `DryRunAPIClient` implements:
the method called and its arguments. -/
inductive Action (L : Type) where
  | addGroupMembership (username group : String) (level : L)
  | changeGroupMembership (username group : String) (level : L)
  | removeGroupMembership (username group : String)
  | addProjectSharing (project group : String) (level : L)
  | removeProjectSharing (project group : String)

/-- Dispatch of an interface call to the method of `DryRunAPIClient`. -/
def DryRunAPIClient.perform {σ L : Type} [Stringer L] (m : DryRunAPIClient σ) :
    Action L → σ → DryRunResult σ
  | .addGroupMembership username group level => m.AddGroupMembership username group level
  | .changeGroupMembership username group level =>
    m.ChangeGroupMembership username group level
  | .removeGroupMembership username group => m.RemoveGroupMembership username group
  | .addProjectSharing project group level => m.AddProjectSharing project group level
  | .removeProjectSharing project group => m.RemoveProjectSharing project group

/-- A client whose sink counts how many times it is invoked. -/
def DryRunAPIClient.counting : DryRunAPIClient Nat :=
  { Append := some (fun _ n => n + 1) }

/-- An environment in which the file at `path` does not exist: reading it
fails with the text of Go's `*PathError`. -/
def withoutFile {Acls : Type} (env : Env Acls) (path : String) : Env Acls :=
  { env with
    ReadFile := fun p =>
      if p = path then .error (Sprintf "open %s: no such file or directory" [p])
      else env.ReadFile p }

/-- An environment in which the file at `path` holds `content`. -/
def withFile {Acls : Type} (env : Env Acls) (path content : String) : Env Acls :=
  { env with ReadFile := fun p => if p = path then .ok content else env.ReadFile p }

/-- Two configurations with the same merged fields: the same ACL at every
key of `Groups` and of `Projects`, and the same `Users` and `Bots`. -/
def sameMerged {Acls : Type} (x y : Config Acls) : Prop :=
  (∀ k, x.Groups.get? k = y.Groups.get? k) ∧
  (∀ k, x.Projects.get? k = y.Projects.get? k) ∧
  x.Users = y.Users ∧ x.Bots = y.Bots

/-- Merging `B` and then `C` into the aggregate `A`. -/
def mergeOneByOne {Acls : Type} (A B C : Config Acls) : Option (Config Acls) :=
  (mergeConfigs A B).bind fun ab => mergeConfigs ab C

/-- Merging into the aggregate `A` the result of merging `C` into `B`. -/
def mergeGrouped {Acls : Type} (A B C : Config Acls) : Option (Config Acls) :=
  (mergeConfigs B C).bind fun bc => mergeConfigs A bc

/-- Go's `<` on the characters of two strings: lexicographic order by code
point, which for UTF-8 text is the byte order Go compares strings in. -/
def lessChars : List Char → List Char → Bool
  | _, [] => false
  | [], _ :: _ => true
  | x :: xs, y :: ys =>
    if x.toNat < y.toNat then true
    else if y.toNat < x.toNat then false
    else lessChars xs ys

/-- Go's `a < b` on strings. -/
def stringLess (a b : String) : Bool := lessChars a.data b.data

/-- Insertion of `x` before the first element it is `less` than. -/
def insertSorted {α : Type} (less : α → α → Bool) (x : α) : List α → List α
  | [] => [x]
  | y :: ys => if less x y then x :: y :: ys else y :: insertSorted less x ys

/-- Go's `sort.Slice(slice, less)`, as the slice it leaves behind. For a
strict total order, which is what the source passes, the sorted arrangement
of a slice is unique; it is computed here by insertion. -/
def sortSlice {α : Type} (less : α → α → Bool) : List α → List α
  | [] => []
  | x :: xs => insertSorted less x (sortSlice less xs)

/-- The loop `for v := range m { slice = append(slice, v) }` of
`ToStringSlice`. -/
def collectKeys {V : Type} (slice : List String) :
    List (Sigma fun _ : String => V) → List String
  | [] => slice
  | e :: rest => collectKeys (slice ++ [e.1]) rest

/-- The loop of `ToStringSliceIgnoring`, which skips the key `ignore`. -/
def collectKeysIgnoring {V : Type} (ignore : String) (slice : List String) :
    List (Sigma fun _ : String => V) → List String
  | [] => slice
  | e :: rest =>
    if e.1 = ignore then collectKeysIgnoring ignore slice rest
    else collectKeysIgnoring ignore (slice ++ [e.1]) rest

/-- The function `ToStringSlice(m map[string]int)`. -/
def ToStringSlice (m : GoMap Int) : List String :=
  sortSlice stringLess (collectKeys [] m.range)

/-- The function `ToStringSliceIgnoring(m map[string]int, ignore string)`. -/
def ToStringSliceIgnoring (m : GoMap Int) (ignore : String) : List String :=
  sortSlice stringLess (collectKeysIgnoring ignore [] m.range)

/-- A map with the keys `b`, `c`, `a`, ranged over in that order. -/
def exampleLevels : GoMap Int :=
  .alloc (((AList.singleton "a" 30).insert "c" 10).insert "b" 40)

/-- The same map ranged over in another order. -/
def exampleLevelsReordered : GoMap Int :=
  .alloc (((AList.singleton "b" 40).insert "a" 30).insert "c" 10)

/-- The single quote the dry-run messages put around every argument. -/
def quoteChar : Char := Char.ofNat 39

/-- A string without single quote. -/
def noQuote (s : String) : Prop := quoteChar ∉ s.data

/-! ## Strict YAML decoding

The decoder `loadFile` calls, `yaml.UnmarshalStrict` of `gopkg.in/yaml.v2`,
as far as the handling of mapping keys goes: `unmarshal(in, out, strict)`
parses the text, decodes the document node into the struct with
`decoder.mappingStruct`, and returns a `*TypeError` when decoding recorded
type errors. The parser and the decoding of values that are not structs are
parameters (`YamlLib`). -/

/-- A parsed YAML document: a scalar, a sequence, or a mapping. A field of a
mapping is the line of its key, counted from 0, its key (`none` for the merge
key `<<`, `some k` for the scalar key `k`) and its value. -/
inductive Node where
  | scalar (value : String)
  | sequence (items : List Node)
  | mapping (fields : List (Nat × Option String × Node))

/-- The scalar keys of a mapping node; other nodes have none. -/
def Node.keys : Node → List String
  | .mapping fields => fields.filterMap fun fld => fld.2.1
  | _ => []

/-- The items of a sequence node; other nodes have none. -/
def Node.items : Node → List Node
  | .sequence items => items
  | _ => []

/-- What decoding a node into a value of type `T` gives: the value
afterwards, whether the node was decoded (`good`), and the type errors
recorded meanwhile. -/
structure Decoded (T : Type) where
  value : T
  good : Bool
  terrors : List String

/-- One field of a Go struct as the decoder sees it: its YAML key and the
decoding of a value node into it. -/
structure FieldInfo (T : Type) where
  key : String
  decode : Node → T → Decoded T

/-- A Go struct type as the decoder sees it: its name, its fields, what the
value of a merge key does to it, and what a node that is not a mapping does
to it. -/
structure StructInfo (T : Type) where
  typeName : String
  fields : List (FieldInfo T)
  merge : Node → T → Decoded T
  other : Node → T → Decoded T

/-- The type error of strict mode for a key that is no field of the struct. -/
def fieldNotFound (line : Nat) (name typeName : String) : String :=
  "line " ++ toString (line + 1) ++ ": field " ++ name ++ " not found in type " ++ typeName

/-- The type error of strict mode for a key met a second time. -/
def fieldAlreadySet (line : Nat) (name typeName : String) : String :=
  "line " ++ toString (line + 1) ++ ": field " ++ name ++ " already set in type " ++ typeName

/-- The loop of `decoder.mappingStruct` over the fields of a mapping node:
`done` holds the keys decoded so far (`doneFields`), `out` the struct and
`terrors` the type errors so far. A merge key merges its value; a key that
names a field decodes its value into the field, unless strict mode has seen
the key before; any other key is skipped, with a type error in strict mode. -/
def mappingStruct {T : Type} (strict : Bool) (info : StructInfo T) :
    List (Nat × Option String × Node) → List String → T → List String → T × List String
  | [], _, out, terrors => (out, terrors)
  | (_, none, value) :: rest, done, out, terrors =>
    let r := info.merge value out
    mappingStruct strict info rest done r.value (terrors ++ r.terrors)
  | (line, some name, value) :: rest, done, out, terrors =>
    match info.fields.find? fun fi => fi.key = name with
    | some fi =>
      if strict ∧ name ∈ done then
        mappingStruct strict info rest done out
          (terrors ++ [fieldAlreadySet line name info.typeName])
      else
        let r := fi.decode value out
        mappingStruct strict info rest (name :: done) r.value (terrors ++ r.terrors)
    | none =>
      if strict then
        mappingStruct strict info rest done out
          (terrors ++ [fieldNotFound line name info.typeName])
      else mappingStruct strict info rest done out terrors

/-- Decoding a node into a struct (`decoder.unmarshal` on a struct value): a
mapping goes through `mappingStruct`, any other node through `other`. -/
def decodeStruct {T : Type} (strict : Bool) (info : StructInfo T) (n : Node) (out : T) :
    Decoded T :=
  match n with
  | .mapping fields =>
    let r := mappingStruct strict info fields [] out []
    ⟨r.1, true, r.2⟩
  | _ => info.other n out

/-- What the decoder does outside the handling of struct keys. -/
structure YamlLib (Acls : Type) where
  /-- The parser: the content node of the document (`none` for an empty
  document), or the text of the syntax error. -/
  parse : String → Except String (Option Node)
  /-- Decoding a value into a `map[string]Acls` field holding `current`. -/
  decodeAclsMap : Bool → Node → GoMap Acls → Decoded (GoMap Acls)
  /-- Decoding a value into a `[]string` field. -/
  decodeStrings : Node → List String → Decoded (List String)
  /-- Decoding a value into a `string` field. -/
  decodeString : Node → String → Decoded String
  /-- Decoding a value that is not a sequence into a `[]Bot` field. -/
  otherBots : Node → List Bot → Decoded (List Bot)
  /-- Merge keys and values that are not mappings, for each struct type. -/
  mergeConfig : Node → Config Acls → Decoded (Config Acls)
  otherConfig : Node → Config Acls → Decoded (Config Acls)
  mergeUsers : Node → Users → Decoded Users
  otherUsers : Node → Users → Decoded Users
  mergeBot : Node → Bot → Decoded Bot
  otherBot : Node → Bot → Decoded Bot

/-- Modelled from the spec: the keys of a bot, `username` and `email`. -/
def botKeys : List String := ["username", "email"]

/-- Modelled from the spec: the sub-keys of `users`, `admins` and `blocked`. -/
def usersKeys : List String := ["admins", "blocked"]

/-- Modelled from the spec: the top-level keys of a configuration file,
`groups`, `projects`, `users`, `bots` and `files`. -/
def configKeys : List String := ["groups", "projects", "users", "bots", "files"]

/-- Modelled from the spec: the struct `internal.Bot` as the decoder sees it,
with the keys `botKeys`. -/
def botInfo {Acls : Type} (lib : YamlLib Acls) : StructInfo Bot :=
  { typeName := "internal.Bot"
    fields :=
      [ ⟨"username", fun n b =>
          let r := lib.decodeString n b.Username
          ⟨{ b with Username := r.value }, r.good, r.terrors⟩⟩,
        ⟨"email", fun n b =>
          let r := lib.decodeString n b.Email
          ⟨{ b with Email := r.value }, r.good, r.terrors⟩⟩ ]
    merge := lib.mergeBot
    other := lib.otherBot }

/-- Modelled from the spec: the struct `internal.Users` as the decoder sees
it, with the keys `usersKeys`. -/
def usersInfo {Acls : Type} (lib : YamlLib Acls) : StructInfo Users :=
  { typeName := "internal.Users"
    fields :=
      [ ⟨"admins", fun n u =>
          let r := lib.decodeStrings n u.Admins
          ⟨{ u with Admins := r.value }, r.good, r.terrors⟩⟩,
        ⟨"blocked", fun n u =>
          let r := lib.decodeStrings n u.Blocked
          ⟨{ u with Blocked := r.value }, r.good, r.terrors⟩⟩ ]
    merge := lib.mergeUsers
    other := lib.otherUsers }

/-- Decoding the items of a sequence into a `[]Bot`: every item is decoded
into a fresh bot, which is appended when the item was decoded. -/
def decodeBotItems {Acls : Type} (strict : Bool) (lib : YamlLib Acls) :
    List Node → List Bot → List String → List Bot × List String
  | [], bots, terrors => (bots, terrors)
  | item :: rest, bots, terrors =>
    let r := decodeStruct strict (botInfo lib) item ⟨"", ""⟩
    decodeBotItems strict lib rest (if r.good then bots ++ [r.value] else bots)
      (terrors ++ r.terrors)

/-- Decoding a value into the `[]Bot` field. -/
def decodeBots {Acls : Type} (strict : Bool) (lib : YamlLib Acls) (n : Node)
    (current : List Bot) : Decoded (List Bot) :=
  match n with
  | .sequence items =>
    let r := decodeBotItems strict lib items [] []
    ⟨r.1, true, r.2⟩
  | _ => lib.otherBots n current

/-- Modelled from the spec: the struct `internal.Config` as the decoder sees
it, with the keys `configKeys`. -/
def configInfo {Acls : Type} (strict : Bool) (lib : YamlLib Acls) :
    StructInfo (Config Acls) :=
  { typeName := "internal.Config"
    fields :=
      [ ⟨"groups", fun n c =>
          let r := lib.decodeAclsMap strict n c.Groups
          ⟨{ c with Groups := r.value }, r.good, r.terrors⟩⟩,
        ⟨"projects", fun n c =>
          let r := lib.decodeAclsMap strict n c.Projects
          ⟨{ c with Projects := r.value }, r.good, r.terrors⟩⟩,
        ⟨"users", fun n c =>
          let r := decodeStruct strict (usersInfo lib) n c.Users
          ⟨{ c with Users := r.value }, r.good, r.terrors⟩⟩,
        ⟨"bots", fun n c =>
          let r := decodeBots strict lib n c.Bots
          ⟨{ c with Bots := r.value }, r.good, r.terrors⟩⟩,
        ⟨"files", fun n c =>
          let r := lib.decodeStrings n c.Files
          ⟨{ c with Files := r.value }, r.good, r.terrors⟩⟩ ]
    merge := lib.mergeConfig
    other := lib.otherConfig }

/-- Go's `strings.Join`. -/
def joinWith (sep : String) : List String → String
  | [] => ""
  | [e] => e
  | e :: rest => e ++ sep ++ joinWith sep rest

/-- The text of a `*yaml.TypeError`. -/
def typeErrorText (terrors : List String) : String :=
  "yaml: unmarshal errors:\n  " ++ joinWith "\n  " terrors

/-- The function `unmarshal(in, out, strict)` of yaml.v2 on a zero
`internal.Config`: the configuration left in `out` and the error. A syntax
error leaves `out` untouched; type errors are returned together after the
whole document has been decoded. -/
def yamlUnmarshal {Acls : Type} (lib : YamlLib Acls) (strict : Bool) (content : String) :
    Config Acls × Option String :=
  match lib.parse content with
  | .error e => (Config.zero, some e)
  | .ok none => (Config.zero, none)
  | .ok (some doc) =>
    let r := decodeStruct strict (configInfo strict lib) doc Config.zero
    if r.terrors = [] then (r.value, none) else (r.value, some (typeErrorText r.terrors))

/-- A mapping has an unrecognized key: a top-level key outside `configKeys`,
a key outside `usersKeys` in the value of `users`, or a key outside `botKeys`
in an item of the value of `bots`. -/
def hasUnknownKey (fields : List (Nat × Option String × Node)) : Prop :=
  (∃ fld ∈ fields, ∃ k, fld.2.1 = some k ∧ k ∉ configKeys) ∨
  (∃ fld ∈ fields, fld.2.1 = some "users" ∧ ∃ k ∈ fld.2.2.keys, k ∉ usersKeys) ∨
  (∃ fld ∈ fields, fld.2.1 = some "bots" ∧
    ∃ item ∈ fld.2.2.items, ∃ k ∈ item.keys, k ∉ botKeys)

/-- An instance of the decoder's parameters for the examples. It parses the
texts `colour: blue`, `users: {admin: [root]}` and `files: [a.yml, b.yml]`;
every other text is outside the example and reported as a syntax error. A
value for `[]string` is decoded when it is a sequence of scalars. -/
def exampleYaml : YamlLib String :=
  { parse := fun content =>
      if content = "colour: blue" then
        .ok (some (.mapping [(0, some "colour", .scalar "blue")]))
      else if content = "users: {admin: [root]}" then
        .ok (some (.mapping
          [(0, some "users", .mapping [(0, some "admin", .sequence [.scalar "root"])])]))
      else if content = "files: [a.yml, b.yml]" then
        .ok (some (.mapping
          [(0, some "files", .sequence [.scalar "a.yml", .scalar "b.yml"])]))
      else .error "yaml: text outside the example"
    decodeAclsMap := fun _ _ current => ⟨current, false, []⟩
    decodeStrings := fun n current =>
      match n with
      | .sequence items =>
        ⟨items.filterMap fun item =>
            match item with
            | .scalar v => some v
            | _ => none, true, []⟩
      | _ => ⟨current, false, []⟩
    decodeString := fun n current =>
      match n with
      | .scalar v => ⟨v, true, []⟩
      | _ => ⟨current, false, []⟩
    otherBots := fun _ current => ⟨current, false, []⟩
    mergeConfig := fun _ c => ⟨c, true, []⟩
    otherConfig := fun _ c => ⟨c, false, []⟩
    mergeUsers := fun _ u => ⟨u, true, []⟩
    otherUsers := fun _ u => ⟨u, false, []⟩
    mergeBot := fun _ b => ⟨b, true, []⟩
    otherBot := fun _ b => ⟨b, false, []⟩ }

/-- The example file system with the strict decoder over `exampleYaml`, and
two more files holding `colour: blue`: `strict.yml`, whose sidecar holds its
digest, and `stale.yml`, whose sidecar holds another digest. -/
def exampleYamlEnv : Env String :=
  { ReadFile := fun path =>
      if path = "strict.yml" then .ok "colour: blue"
      else if path = "strict.yml.md5" then .ok "075d0ec4035f52ffe38c14b8760c9ace\n"
      else if path = "stale.yml" then .ok "colour: blue"
      else if path = "stale.yml.md5" then .ok "9e82319531a079ec46607f304bdc281f\n"
      else exampleReadFile path
    md5hex := fun content =>
      if content = "colour: blue" then "075d0ec4035f52ffe38c14b8760c9ace"
      else exampleMd5hex content
    UnmarshalStrict := yamlUnmarshal exampleYaml true }

/-! ## Lemmas on maps and `mergeConfigs` -/

theorem rangeAssign_alloc {V : Type} (l : List (Sigma fun _ : String => V))
    (m : AList (fun _ : String => V)) :
    rangeAssign (.alloc m) l = some (.alloc (l.foldl (fun acc e => acc.insert e.1 e.2) m)) := by
  induction l generalizing m with
  | nil => rfl
  | cons e t ih => simp [rangeAssign, GoMap.assign, ih]

theorem lookup_foldl_insert {V : Type} (l : List (Sigma fun _ : String => V))
    (hnd : l.NodupKeys) (m : AList (fun _ : String => V)) (k : String) :
    (l.foldl (fun acc e => acc.insert e.1 e.2) m).lookup k =
      match l.dlookup k with
      | some v => some v
      | none => m.lookup k := by
  induction l generalizing m with
  | nil => simp
  | cons e t ih =>
    obtain ⟨ek, ev⟩ := e
    obtain ⟨hk, ht⟩ := List.nodupKeys_cons.mp hnd
    rw [List.foldl_cons, ih ht]
    by_cases h : k = ek
    · subst h
      have hnone : t.dlookup k = none := List.dlookup_eq_none.mpr hk
      simp [hnone, List.dlookup_cons_eq, AList.lookup_insert]
    · rw [List.dlookup_cons_ne _ _ h, AList.lookup_insert_ne h]

/-- Reading a key after the loop `for k, v := range src { dst[k] = v }` on an
allocated destination: the source's value if the source has the key, else the
destination's own. -/
theorem rangeAssign_get {V : Type} (dst src : GoMap V) (h : dst.isAlloc = true) :
    ∃ r, rangeAssign dst src.range = some r ∧ r.isAlloc = true ∧
      ∀ k, r.get? k = match src.get? k with
        | some v => some v
        | none => dst.get? k := by
  cases dst with
  | nil => simp [GoMap.isAlloc] at h
  | alloc m =>
    refine ⟨_, rangeAssign_alloc _ _, rfl, fun k => ?_⟩
    cases src with
    | nil => simp [GoMap.range, GoMap.get?]
    | alloc s =>
      simp only [GoMap.range, GoMap.get?]
      rw [lookup_foldl_insert _ s.nodupKeys]
      rfl

theorem appendEach_eq {α : Type} (dst src : List α) : appendEach dst src = dst ++ src := by
  induction src generalizing dst with
  | nil => simp [appendEach]
  | cons u t ih => simp [appendEach, ih]

/-- When the aggregate's maps are allocated `mergeConfigs` does not panic, and
the aggregate's maps stay allocated. -/
theorem mergeConfigs_alloc {Acls : Type} (c cc : Config Acls)
    (hG : c.Groups.isAlloc = true) (hP : c.Projects.isAlloc = true) :
    ∃ g p, rangeAssign c.Groups cc.Groups.range = some g ∧
      rangeAssign c.Projects cc.Projects.range = some p ∧
      g.isAlloc = true ∧ p.isAlloc = true ∧
      (∀ k, g.get? k = match cc.Groups.get? k with
        | some v => some v
        | none => c.Groups.get? k) ∧
      (∀ k, p.get? k = match cc.Projects.get? k with
        | some v => some v
        | none => c.Projects.get? k) ∧
      mergeConfigs c cc = some
        { Groups := g, Projects := p,
          Users := { Admins := c.Users.Admins ++ cc.Users.Admins,
                     Blocked := c.Users.Blocked ++ cc.Users.Blocked },
          Bots := c.Bots ++ cc.Bots, Files := c.Files } := by
  obtain ⟨g, hg, hga, hgk⟩ := rangeAssign_get c.Groups cc.Groups hG
  obtain ⟨p, hp, hpa, hpk⟩ := rangeAssign_get c.Projects cc.Projects hP
  refine ⟨g, p, hg, hp, hga, hpa, hgk, hpk, ?_⟩
  simp [mergeConfigs, hg, hp, appendEach_eq]

/-- With an aggregate whose maps are allocated, `mergeConfigs` returns an
aggregate whose maps are allocated and whose `Files` is unchanged. -/
theorem mergeConfigs_some {Acls : Type} (c cc : Config Acls)
    (hG : c.Groups.isAlloc = true) (hP : c.Projects.isAlloc = true) :
    ∃ r, mergeConfigs c cc = some r ∧ r.Groups.isAlloc = true ∧
      r.Projects.isAlloc = true ∧ r.Files = c.Files ∧
      ∀ k, r.Groups.get? k = match cc.Groups.get? k with
        | some v => some v
        | none => c.Groups.get? k := by
  obtain ⟨g, p, -, -, hga, hpa, hgk, -, hm⟩ := mergeConfigs_alloc c cc hG hP
  exact ⟨_, hm, hga, hpa, rfl, hgk⟩

/-! ## Claims on `mergeConfigs` -/

/-- C1: for an aggregate `A` with allocated groups and projects maps and any
incoming `B`, `mergeConfigs(&A, B)` returns, and afterwards in the groups map
and in the projects map every key `k` that `B` has holds exactly `B`'s ACL,
every other key that `A` had holds `A`'s original ACL, and `k` is absent
exactly when it was in neither map. -/
theorem mergeConfigs_maps_override {Acls : Type} (A B : Config Acls)
    (hG : A.Groups.isAlloc = true) (hP : A.Projects.isAlloc = true) :
    ∃ R, mergeConfigs A B = some R ∧
      (∀ k,
        (∀ v, B.Groups.get? k = some v → R.Groups.get? k = some v) ∧
        (B.Groups.get? k = none → R.Groups.get? k = A.Groups.get? k) ∧
        (R.Groups.get? k = none ↔ A.Groups.get? k = none ∧ B.Groups.get? k = none)) ∧
      (∀ k,
        (∀ v, B.Projects.get? k = some v → R.Projects.get? k = some v) ∧
        (B.Projects.get? k = none → R.Projects.get? k = A.Projects.get? k) ∧
        (R.Projects.get? k = none ↔
          A.Projects.get? k = none ∧ B.Projects.get? k = none)) := by
  obtain ⟨g, p, -, -, -, -, hgk, hpk, hm⟩ := mergeConfigs_alloc A B hG hP
  refine ⟨_, hm, fun k => ?_, fun k => ?_⟩
  · simp only [hgk k]
    cases hB : B.Groups.get? k <;> simp
  · simp only [hpk k]
    cases hB : B.Projects.get? k <;> simp

/-- Witness of C1 on `exampleAggregate` and `exampleIncoming`: `dev`, set by
both, holds the incoming ACL; `ops` keeps the aggregate's, `qa` gets the
incoming one, and a key of neither stays absent. -/
theorem mergeConfigs_maps_override_witness :
    ∃ R, mergeConfigs exampleAggregate exampleIncoming = some R ∧
      R.Groups.get? "dev" = some "new-dev" ∧ R.Groups.get? "ops" = some "old-ops" ∧
      R.Groups.get? "qa" = some "new-qa" ∧ R.Groups.get? "web" = none ∧
      R.Projects.get? "web" = none := by
  obtain ⟨R, hR, hG, hP⟩ := mergeConfigs_maps_override exampleAggregate exampleIncoming rfl rfl
  refine ⟨R, hR, (hG "dev").1 _ (by decide), ?_, (hG "qa").1 _ (by decide),
    (hG "web").2.2.mpr ⟨by decide, by decide⟩, (hP "web").2.2.mpr ⟨by decide, by decide⟩⟩
  rw [(hG "ops").2.1 (by decide)]
  decide

/-- C2: whenever `mergeConfigs(&A, B)` can run (each map of `A` is allocated
or `B` has nothing to put in it), afterwards `A.Users.Admins`,
`A.Users.Blocked` and `A.Bots` are the original sequences of `A` followed by
the whole sequences of `B`, in order and with duplicates kept; so the number
of admins is the sum of both, and an admin listed in `A` and in `B` occurs at
least twice. -/
theorem mergeConfigs_lists_accumulate {Acls : Type} (A B : Config Acls)
    (hG : A.Groups.isAlloc = true ∨ B.Groups.range = [])
    (hP : A.Projects.isAlloc = true ∨ B.Projects.range = []) :
    ∃ R, mergeConfigs A B = some R ∧
      R.Users.Admins = A.Users.Admins ++ B.Users.Admins ∧
      R.Users.Blocked = A.Users.Blocked ++ B.Users.Blocked ∧
      R.Bots = A.Bots ++ B.Bots ∧
      R.Users.Admins.length = A.Users.Admins.length + B.Users.Admins.length ∧
      (∀ u, u ∈ A.Users.Admins → u ∈ B.Users.Admins → 2 ≤ R.Users.Admins.count u) := by
  have hg : ∃ g, rangeAssign A.Groups B.Groups.range = some g := by
    rcases hG with h | h
    · obtain ⟨g, hg, -⟩ := rangeAssign_get A.Groups B.Groups h
      exact ⟨g, hg⟩
    · exact ⟨_, by rw [h]; rfl⟩
  have hp : ∃ p, rangeAssign A.Projects B.Projects.range = some p := by
    rcases hP with h | h
    · obtain ⟨p, hp, -⟩ := rangeAssign_get A.Projects B.Projects h
      exact ⟨p, hp⟩
    · exact ⟨_, by rw [h]; rfl⟩
  obtain ⟨g, hg⟩ := hg
  obtain ⟨p, hp⟩ := hp
  refine ⟨_, by simp only [mergeConfigs, hg, hp]; rfl, ?_⟩
  simp only [appendEach_eq, List.length_append, true_and]
  intro u hA hB
  rw [List.count_append]
  have h1 := List.count_pos_iff.mpr hA
  have h2 := List.count_pos_iff.mpr hB
  omega

/-! ## Lemmas on `loadFile` and `LoadConfig` -/

theorem Sprintf_sidecar (f : String) : Sprintf "%s.md5" [f] = f ++ ".md5" := by
  apply String.ext
  simp [Sprintf, formatVerbs]

theorem checksumBlock_reads {Acls : Type} (env : Env Acls) (filename content : String) :
    (checksumBlock env filename content).1 = [filename ++ ".md5"] := by
  unfold checksumBlock
  simp only [Sprintf_sidecar]
  split
  · rfl
  · split <;> rfl

/-- The paths `loadFile` reads: the file, then its sidecar if the file was
readable and checksums are verified. -/
theorem loadFile_reads {Acls : Type} (env : Env Acls) (f : String) (chk : Bool) :
    (loadFile env f chk).reads =
      match env.ReadFile f with
      | .error _ => [f]
      | .ok _ => if chk then [f, f ++ ".md5"] else [f] := by
  unfold loadFile
  cases hr : env.ReadFile f with
  | error e => rfl
  | ok content =>
    cases chk with
    | false =>
      simp only [Bool.false_eq_true, if_false]
      split <;> rfl
    | true =>
      simp only [if_true]
      have h := checksumBlock_reads env f content
      split
      · simp [h]
      · split <;> simp [h]

theorem loadFile_reads_of_ok {Acls : Type} (env : Env Acls) (f : String) (chk : Bool)
    (h : (loadFile env f chk).err = none) :
    (loadFile env f chk).reads = if chk then [f, f ++ ".md5"] else [f] := by
  rw [loadFile_reads]
  cases hr : env.ReadFile f with
  | error e => simp [loadFile, hr, Errorf] at h
  | ok content => rfl

theorem loadFile_reads_subset {Acls : Type} (env : Env Acls) (f : String) (chk : Bool) :
    ∀ p ∈ (loadFile env f chk).reads, p ∈ (if chk then [f, f ++ ".md5"] else [f]) := by
  rw [loadFile_reads]
  intro p hp
  cases hr : env.ReadFile f with
  | error e =>
    rw [hr] at hp
    cases chk <;> simp_all
  | ok content =>
    rw [hr] at hp
    exact hp

theorem mergeConfigs_setFiles {Acls : Type} (c cc : Config Acls) (F : List String) :
    mergeConfigs { c with Files := F } cc =
      (mergeConfigs c cc).map fun r => { r with Files := F } := by
  unfold mergeConfigs
  cases rangeAssign c.Groups cc.Groups.range with
  | none => rfl
  | some g =>
    cases rangeAssign c.Projects cc.Projects.range with
    | none => rfl
    | some p => rfl

theorem foldlM_mergeConfigs_setFiles {Acls : Type} (parts : List (Config Acls))
    (c : Config Acls) (F : List String) :
    List.foldlM mergeConfigs { c with Files := F } parts =
      (List.foldlM mergeConfigs c parts).map fun r => { r with Files := F } := by
  induction parts generalizing c with
  | nil => rfl
  | cons cc t ih =>
    rw [List.foldlM_cons, List.foldlM_cons, mergeConfigs_setFiles]
    cases mergeConfigs c cc with
    | none => rfl
    | some r => exact ih r

/-- When every listed file loads, the loop of `LoadConfig` folds `mergeConfigs`
over their configurations and reads each of them once, in order. -/
theorem loadListed_ok {Acls : Type} (env : Env Acls) (chk : Bool) (fs : List String)
    (c : Config Acls) (hG : c.Groups.isAlloc = true) (hP : c.Projects.isAlloc = true)
    (h : ∀ f ∈ fs, (loadFile env f chk).err = none) :
    ∃ merged,
      List.foldlM mergeConfigs c (fs.map fun f => (loadFile env f chk).config) = some merged ∧
      loadListed env chk fs c = some ⟨pathsRead chk fs, merged, none⟩ := by
  induction fs generalizing c with
  | nil => exact ⟨c, rfl, rfl⟩
  | cons f t ih =>
    have hf : (loadFile env f chk).err = none := h f (List.mem_cons_self _ _)
    obtain ⟨c1, hm, hga, hpa, -, -⟩ := mergeConfigs_some c (loadFile env f chk).config hG hP
    obtain ⟨merged, h1, h2⟩ := ih c1 hga hpa (fun x hx => h x (List.mem_cons_of_mem _ hx))
    refine ⟨merged, ?_, ?_⟩
    · rw [List.map_cons, List.foldlM_cons, hm]
      exact h1
    · simp only [loadListed, hf, hm, h2, loadFile_reads_of_ok env f chk hf]
      simp [pathsRead]

/-- The loop of `LoadConfig` never panics on an aggregate with allocated maps;
it keeps the aggregate's `Files` and reads only listed files and sidecars. -/
theorem loadListed_total {Acls : Type} (env : Env Acls) (chk : Bool) (fs : List String)
    (c : Config Acls) (hG : c.Groups.isAlloc = true) (hP : c.Projects.isAlloc = true) :
    ∃ r, loadListed env chk fs c = some r ∧ r.config.Files = c.Files ∧
      (∀ p ∈ r.reads, p ∈ pathsRead chk fs) := by
  induction fs generalizing c with
  | nil => exact ⟨_, rfl, rfl, fun p hp => by simp at hp⟩
  | cons f t ih =>
    have hsub := loadFile_reads_subset env f chk
    have hhead : ∀ p, p ∈ (if chk then [f, f ++ ".md5"] else [f]) →
        p ∈ pathsRead chk (f :: t) := by
      intro p hp
      simp only [pathsRead, List.flatMap_cons, List.mem_append]
      exact Or.inl hp
    cases hf : (loadFile env f chk).err with
    | some e =>
      exact ⟨⟨(loadFile env f chk).reads, c, Errorf "failed to load file %s: %s" [f, e]⟩,
        by simp only [loadListed, hf], rfl, fun p hp => hhead p (hsub p hp)⟩
    | none =>
      obtain ⟨c1, hm, hga, hpa, hfiles, -⟩ :=
        mergeConfigs_some c (loadFile env f chk).config hG hP
      obtain ⟨r, hr, hrf, hrr⟩ := ih c1 hga hpa
      refine ⟨⟨(loadFile env f chk).reads ++ r.reads, r.config, r.err⟩,
        by simp only [loadListed, hf, hm, hr],
        hrf.trans hfiles, fun q hq => ?_⟩
      rcases List.mem_append.mp hq with hq | hq
      · exact hhead q (hsub q hq)
      · simp only [pathsRead, List.flatMap_cons, List.mem_append]
        exact Or.inr (hrr q hq)

theorem checksumBlock_congr {Acls : Type} (env env2 : Env Acls)
    (hread : env2.ReadFile = env.ReadFile) (hmd5 : env2.md5hex = env.md5hex)
    (f content : String) :
    checksumBlock env2 f content = checksumBlock env f content := by
  simp only [checksumBlock, hread, hmd5]

theorem sameButFiles_refl {Acls : Type} (a : Config Acls) : sameButFiles a a :=
  ⟨rfl, rfl, rfl, rfl⟩

/-- Two environments with the same files and digests, whose decoders agree up
to the `Files` field, make `loadFile` read the same paths and return the same
error and, up to `Files`, the same configuration. -/
theorem loadFile_congr {Acls : Type} (env env2 : Env Acls)
    (hread : env2.ReadFile = env.ReadFile) (hmd5 : env2.md5hex = env.md5hex)
    (hparse : ∀ content, (env2.UnmarshalStrict content).2 = (env.UnmarshalStrict content).2 ∧
      sameButFiles (env2.UnmarshalStrict content).1 (env.UnmarshalStrict content).1)
    (f : String) (chk : Bool) :
    (loadFile env2 f chk).reads = (loadFile env f chk).reads ∧
    (loadFile env2 f chk).err = (loadFile env f chk).err ∧
    sameButFiles (loadFile env2 f chk).config (loadFile env f chk).config := by
  unfold loadFile
  rw [hread]
  cases env.ReadFile f with
  | error e => exact ⟨rfl, rfl, sameButFiles_refl _⟩
  | ok content =>
    simp only [checksumBlock_congr env env2 hread hmd5]
    obtain ⟨h2, h1⟩ := hparse content
    cases hc : (if chk = true then checksumBlock env f content else ([], none)).2 with
    | some e => exact ⟨rfl, rfl, sameButFiles_refl _⟩
    | none =>
      simp only [h2]
      cases (env.UnmarshalStrict content).2 with
      | some e => exact ⟨rfl, rfl, h1⟩
      | none => exact ⟨rfl, rfl, h1⟩

theorem mergeConfigs_congr {Acls : Type} (c cc cc2 : Config Acls)
    (h : sameButFiles cc2 cc) : mergeConfigs c cc2 = mergeConfigs c cc := by
  obtain ⟨h1, h2, h3, h4⟩ := h
  simp only [mergeConfigs, h1, h2, h3, h4]

theorem loadListed_congr {Acls : Type} (env env2 : Env Acls)
    (hread : env2.ReadFile = env.ReadFile) (hmd5 : env2.md5hex = env.md5hex)
    (hparse : ∀ content, (env2.UnmarshalStrict content).2 = (env.UnmarshalStrict content).2 ∧
      sameButFiles (env2.UnmarshalStrict content).1 (env.UnmarshalStrict content).1)
    (chk : Bool) (fs : List String) (c : Config Acls) :
    loadListed env2 chk fs c = loadListed env chk fs c := by
  induction fs generalizing c with
  | nil => rfl
  | cons f t ih =>
    obtain ⟨hr, he, hc⟩ := loadFile_congr env env2 hread hmd5 hparse f chk
    simp only [loadListed, hr, he, mergeConfigs_congr c _ _ hc, ih]

theorem loadListed_reads_of_ok {Acls : Type} (env : Env Acls) (chk : Bool)
    (fs : List String) (c : Config Acls) (r : Loaded Acls)
    (h : loadListed env chk fs c = some r) (hr : r.err = none) :
    r.reads = pathsRead chk fs := by
  induction fs generalizing c r with
  | nil =>
    simp only [loadListed, Option.some.injEq] at h
    subst h
    rfl
  | cons f t ih =>
    simp only [loadListed] at h
    cases hf : (loadFile env f chk).err with
    | some e =>
      simp only [hf, Option.some.injEq] at h
      subst h
      simp [Errorf] at hr
    | none =>
      simp only [hf] at h
      cases hm : mergeConfigs c (loadFile env f chk).config with
      | none => simp [hm] at h
      | some c1 =>
        simp only [hm] at h
        cases hl : loadListed env chk t c1 with
        | none => simp [hl] at h
        | some r1 =>
          simp only [hl, Option.some.injEq] at h
          subst h
          have h1 := ih c1 r1 hl hr
          simp only [h1, loadFile_reads_of_ok env f chk hf, pathsRead, List.flatMap_cons]

theorem Config.eq_of_sameButFiles {Acls : Type} (a b : Config Acls)
    (h : sameButFiles a b) (hF : a.Files = b.Files) : a = b := by
  obtain ⟨h1, h2, h3, h4⟩ := h
  cases a
  cases b
  simp_all

theorem LoadConfig_congr {Acls : Type} (env env2 : Env Acls) (root : String) (chk : Bool)
    (hread : env2.ReadFile = env.ReadFile) (hmd5 : env2.md5hex = env.md5hex)
    (hparse : ∀ content, (env2.UnmarshalStrict content).2 = (env.UnmarshalStrict content).2 ∧
      sameButFiles (env2.UnmarshalStrict content).1 (env.UnmarshalStrict content).1)
    (hrootFiles : (loadFile env2 root chk).config.Files = (loadFile env root chk).config.Files) :
    LoadConfig env2 root chk = LoadConfig env root chk := by
  obtain ⟨hr, he, hc⟩ := loadFile_congr env env2 hread hmd5 hparse root chk
  have hcfg := Config.eq_of_sameButFiles _ _ hc hrootFiles
  simp only [LoadConfig, hr, he, hcfg, loadListed_congr env env2 hread hmd5 hparse]

/-- The function `LoadConfig` never panics; it reads only the root, the paths
of the root's files list and their sidecars, and exactly those when it
returns no error, the result's `Files` then being the root's list. -/
theorem LoadConfig_total {Acls : Type} (env : Env Acls) (root : String) (chk : Bool) :
    ∃ r, LoadConfig env root chk = some r ∧
      (∀ p ∈ r.reads, p ∈ pathsRead chk (root :: (loadFile env root chk).config.Files)) ∧
      (r.err = none →
        r.reads = pathsRead chk (root :: (loadFile env root chk).config.Files) ∧
        r.config.Files = (loadFile env root chk).config.Files) := by
  have hhead : ∀ p, p ∈ (if chk then [root, root ++ ".md5"] else [root]) →
      p ∈ pathsRead chk (root :: (loadFile env root chk).config.Files) := by
    intro p hp
    simp only [pathsRead, List.flatMap_cons, List.mem_append]
    exact Or.inl hp
  cases hf : (loadFile env root chk).err with
  | some e =>
    refine ⟨⟨(loadFile env root chk).reads, initConfig, some e⟩,
      by simp only [LoadConfig, hf], fun p hp => ?_, fun h => by simp at h⟩
    exact hhead p (loadFile_reads_subset env root chk p hp)
  | none =>
    obtain ⟨c0, hm0, hga0, hpa0, -, -⟩ :=
      mergeConfigs_some initConfig (loadFile env root chk).config rfl rfl
    obtain ⟨r, hr, hrf, hrr⟩ :=
      loadListed_total env chk (loadFile env root chk).config.Files
        { c0 with Files := (loadFile env root chk).config.Files } hga0 hpa0
    refine ⟨⟨(loadFile env root chk).reads ++ r.reads, r.config, r.err⟩,
      by simp only [LoadConfig, hf, hm0, hr], fun p hp => ?_, fun h => ⟨?_, hrf⟩⟩
    · rcases List.mem_append.mp hp with hp | hp
      · exact hhead p (loadFile_reads_subset env root chk p hp)
      · simp only [pathsRead, List.flatMap_cons, List.mem_append]
        exact Or.inr (hrr p hp)
    · have h1 := loadListed_reads_of_ok env chk _ _ r hr h
      simp only [h1, loadFile_reads_of_ok env root chk hf, pathsRead, List.flatMap_cons]

/-! ## Claims on `LoadConfig` -/

/-- C3: when the root file and every path of the root's files list load
without error, `LoadConfig(root)` returns no error and the configuration got
by merging, left to right from the empty configuration, the root's partial
configuration and then that of each listed file in listed order (its `Files`
being the root's list). In particular, with two listed files, a group key set
by the second ends with the second's ACL, and a group key set by the first
and not by the second ends with the first's ACL. -/
theorem LoadConfig_merges_in_order {Acls : Type} (env : Env Acls) (root : String)
    (chk : Bool) (hroot : (loadFile env root chk).err = none)
    (hlisted : ∀ f ∈ (loadFile env root chk).config.Files, (loadFile env f chk).err = none) :
    ∃ merged r,
      List.foldlM mergeConfigs initConfig
        ((loadFile env root chk).config ::
          (loadFile env root chk).config.Files.map fun f => (loadFile env f chk).config)
        = some merged ∧
      LoadConfig env root chk = some r ∧ r.err = none ∧
      r.config = { merged with Files := (loadFile env root chk).config.Files } ∧
      (∀ f1 f2, (loadFile env root chk).config.Files = [f1, f2] → ∀ k,
        (∀ v, (loadFile env f2 chk).config.Groups.get? k = some v →
          r.config.Groups.get? k = some v) ∧
        (∀ v, (loadFile env f1 chk).config.Groups.get? k = some v →
          (loadFile env f2 chk).config.Groups.get? k = none →
          r.config.Groups.get? k = some v)) := by
  obtain ⟨c0, hm0, hga0, hpa0, -, -⟩ :=
    mergeConfigs_some initConfig (loadFile env root chk).config rfl rfl
  obtain ⟨merged2, hfold2, hloop⟩ :=
    loadListed_ok env chk (loadFile env root chk).config.Files
      { c0 with Files := (loadFile env root chk).config.Files } hga0 hpa0 hlisted
  rw [foldlM_mergeConfigs_setFiles] at hfold2
  cases hfold : List.foldlM mergeConfigs c0
      ((loadFile env root chk).config.Files.map fun f => (loadFile env f chk).config) with
  | none => simp [hfold] at hfold2
  | some merged =>
    rw [hfold] at hfold2
    have hmerged2 : merged2 = { merged with Files := (loadFile env root chk).config.Files } :=
      (Option.some.inj hfold2).symm
    subst hmerged2
    refine ⟨merged,
      ⟨(loadFile env root chk).reads ++ pathsRead chk (loadFile env root chk).config.Files,
        { merged with Files := (loadFile env root chk).config.Files }, none⟩,
      ?_, ?_, rfl, rfl, ?_⟩
    · rw [List.foldlM_cons, hm0]
      exact hfold
    · simp only [LoadConfig, hroot, hm0, hloop]
    · intro f1 f2 hF k
      rw [hF] at hfold
      obtain ⟨c1, hm1, hga1, hpa1, -, hk1⟩ :=
        mergeConfigs_some c0 (loadFile env f1 chk).config hga0 hpa0
      obtain ⟨c2, hm2, -, -, -, hk2⟩ :=
        mergeConfigs_some c1 (loadFile env f2 chk).config hga1 hpa1
      simp only [List.map_cons, List.map_nil, List.foldlM_cons, List.foldlM_nil, hm1, hm2,
        Option.bind_eq_bind, Option.some_bind] at hfold
      have hc2 : c2 = merged := Option.some.inj hfold
      subst hc2
      refine ⟨fun v hv => ?_, fun v hv hnone => ?_⟩
      · show c2.Groups.get? k = some v
        rw [hk2 k, hv]
      · show c2.Groups.get? k = some v
        rw [hk2 k, hnone]
        show c1.Groups.get? k = some v
        rw [hk1 k, hv]

/-- C4: `LoadConfig` reads only the root file, the paths of the root's own
files list and their sidecars, and when it succeeds it has read exactly
those, and the `Files` of the result is the root's list. The files lists of
the listed files are never followed: an environment that differs only in the
`Files` field its decoder gives to files (the root's list being the same)
makes `LoadConfig` read the same paths and return the same result. -/
theorem LoadConfig_follows_only_root_list {Acls : Type} (env env2 : Env Acls)
    (root : String) (chk : Bool)
    (hread : env2.ReadFile = env.ReadFile) (hmd5 : env2.md5hex = env.md5hex)
    (hparse : ∀ content, (env2.UnmarshalStrict content).2 = (env.UnmarshalStrict content).2 ∧
      sameButFiles (env2.UnmarshalStrict content).1 (env.UnmarshalStrict content).1)
    (hrootFiles : (loadFile env2 root chk).config.Files = (loadFile env root chk).config.Files) :
    ∃ r, LoadConfig env root chk = some r ∧
      (∀ p ∈ r.reads, p ∈ pathsRead chk (root :: (loadFile env root chk).config.Files)) ∧
      (r.err = none →
        r.reads = pathsRead chk (root :: (loadFile env root chk).config.Files) ∧
        r.config.Files = (loadFile env root chk).config.Files) ∧
      LoadConfig env2 root chk = some r := by
  obtain ⟨r, hr, h1, h2⟩ := LoadConfig_total env root chk
  exact ⟨r, hr, h1, h2, (LoadConfig_congr env env2 root chk hread hmd5 hparse hrootFiles).trans hr⟩

/-- Witness of C2: an aggregate whose projects map is nil merged with an
incoming configuration that has no project. -/
theorem mergeConfigs_lists_accumulate_witness :
    ∃ R, mergeConfigs exampleIncoming exampleAggregate = some R ∧
      R.Users.Admins = ["root", "alice", "root"] ∧
      R.Users.Blocked = ["mallory"] ∧
      R.Bots = [⟨"bot2", "bot2@example.com"⟩, ⟨"bot1", "bot1@example.com"⟩] ∧
      R.Users.Admins.length = 3 ∧ 2 ≤ R.Users.Admins.count "root" := by
  obtain ⟨R, hR, h1, h2, h3, h4, h5⟩ :=
    mergeConfigs_lists_accumulate exampleIncoming exampleAggregate (Or.inl rfl) (Or.inr rfl)
  exact ⟨R, hR, h1, h2, h3, h4, h5 "root" (by decide) (by decide)⟩

/-- Witness of C3: in the example file system `root.yml` lists `a.yml` and
`b.yml`; the group `dev`, set by both, ends with the ACL of `b.yml`, and the
group `qa`, set by `a.yml` only, keeps the ACL of `a.yml`. -/
theorem LoadConfig_merges_in_order_witness :
    ∃ r, LoadConfig exampleEnv "root.yml" true = some r ∧ r.err = none ∧
      r.config.Files = ["a.yml", "b.yml"] ∧
      r.config.Groups.get? "dev" = some "b" ∧ r.config.Groups.get? "qa" = some "a" := by
  have h1 : (loadFile exampleEnv "root.yml" true).err = none := by decide
  have h2 : ∀ f ∈ (loadFile exampleEnv "root.yml" true).config.Files,
      (loadFile exampleEnv f true).err = none := by decide
  obtain ⟨merged, r, -, hr, herr, hcfg, hpart⟩ :=
    LoadConfig_merges_in_order exampleEnv "root.yml" true h1 h2
  have hF : (loadFile exampleEnv "root.yml" true).config.Files = ["a.yml", "b.yml"] := by
    decide
  obtain ⟨-, hqa⟩ := hpart "a.yml" "b.yml" hF "qa"
  refine ⟨r, hr, herr, by rw [hcfg]; exact hF, ?_, hqa "a" (by decide) (by decide)⟩
  exact (hpart "a.yml" "b.yml" hF "dev").1 "b" (by decide)

/-- Witness of C4: giving every listed file of the example a files list of
its own (naming the root again and a file that does not exist) changes
nothing. -/
theorem LoadConfig_follows_only_root_list_witness :
    ∃ r, LoadConfig exampleEnv "root.yml" true = some r ∧
      (r.err = none →
        r.reads = pathsRead true ["root.yml", "a.yml", "b.yml"] ∧
        r.config.Files = ["a.yml", "b.yml"]) ∧
      LoadConfig exampleEnvNested "root.yml" true = some r := by
  have hparse : ∀ content,
      (exampleEnvNested.UnmarshalStrict content).2 = (exampleEnv.UnmarshalStrict content).2 ∧
      sameButFiles (exampleEnvNested.UnmarshalStrict content).1
        (exampleEnv.UnmarshalStrict content).1 := by
    intro content
    simp only [exampleEnvNested, exampleEnv]
    split
    · exact ⟨rfl, sameButFiles_refl _⟩
    · exact ⟨rfl, rfl, rfl, rfl, rfl⟩
  have hF : (loadFile exampleEnv "root.yml" true).config.Files = ["a.yml", "b.yml"] := by
    decide
  obtain ⟨r, hr, -, h2, h3⟩ :=
    LoadConfig_follows_only_root_list exampleEnv exampleEnvNested "root.yml" true rfl rfl
      hparse (by decide)
  rw [hF] at h2
  exact ⟨r, hr, h2, h3⟩

/-! ## Claims on the checksum check of `loadFile` -/

theorem Sprintf_mismatch (a b : String) :
    Sprintf "configuration file calculated md5 '%s' does not match the provided md5 '%s'"
        [a, b] =
      "configuration file calculated md5 '" ++ a ++
        "' does not match the provided md5 '" ++ b ++ "'" := by
  apply String.ext
  simp [Sprintf, formatVerbs]

theorem hexDigits_not_space : ∀ x ∈ hexDigits, isSpace x = false := by decide

theorem hexDigits_upper : ∀ x ∈ hexDigits, Char.toUpper x ∉ "abcdef".data := by decide

theorem TrimSpace_data_subset (s : String) : ∀ x ∈ (TrimSpace s).data, x ∈ s.data := by
  intro x hx
  have h1 : x ∈ s.data.dropWhile isSpace := (List.rdropWhile_prefix isSpace _).subset hx
  exact (List.dropWhile_sublist isSpace).subset h1

/-- Trimming a text made of white space, a core that neither starts nor ends
with white space, and white space again, gives the core. -/
theorem TrimSpace_pad (pre core post : String) (hne : core.data ≠ [])
    (hcore : ∀ x ∈ core.data, isSpace x = false)
    (hpre : ∀ x ∈ pre.data, isSpace x = true) (hpost : ∀ x ∈ post.data, isSpace x = true) :
    TrimSpace (pre ++ core ++ post) = core := by
  apply String.ext
  simp only [TrimSpace, String.data_append, List.append_assoc]
  rw [List.dropWhile_append_of_pos hpre]
  have hdrop : (core.data ++ post.data).dropWhile isSpace = core.data ++ post.data := by
    cases hc : core.data with
    | nil => exact absurd hc hne
    | cons x t =>
      have hx : isSpace x = false := hcore x (by rw [hc]; exact List.mem_cons_self _ _)
      simp [List.dropWhile_cons, hx]
  rw [hdrop, List.rdropWhile, List.reverse_append,
    List.dropWhile_append_of_pos (fun x hx => hpost x (List.mem_reverse.mp hx))]
  have hself : core.data.rdropWhile isSpace = core.data := by
    rw [List.rdropWhile_eq_self_iff]
    intro hl
    simp [hcore _ (List.getLast_mem hl)]
  rw [List.rdropWhile] at hself
  exact hself

/-- C5: with checksum verification on and the file and its sidecar readable,
`loadFile` passes the integrity check exactly when the sidecar's text,
trimmed of surrounding white space, equals the hexadecimal MD5 digest of the
content. When it passes the file is decoded as without verification; when it
does not, `loadFile` returns the mismatch error. So the digest surrounded by
white space is accepted, and a digest holding a letter `a`-`f` written in
upper case is rejected. -/
theorem loadFile_checksum_check {Acls : Type} (env : Env Acls) (f c s : String)
    (hfile : env.ReadFile f = .ok c) (hside : env.ReadFile (f ++ ".md5") = .ok s) :
    ((checksumBlock env f c).2 = none ↔ TrimSpace s = env.md5hex c) ∧
    (TrimSpace s = env.md5hex c →
      loadFile env f true = { loadFile env f false with reads := [f, f ++ ".md5"] }) ∧
    (TrimSpace s ≠ env.md5hex c →
      (loadFile env f true).err = some ("configuration file calculated md5 '" ++
        env.md5hex c ++ "' does not match the provided md5 '" ++ s ++ "'")) ∧
    (isHexDigest (env.md5hex c) = true →
      (∀ pre post : String, (∀ x ∈ pre.data, isSpace x = true) →
        (∀ x ∈ post.data, isSpace x = true) → s = pre ++ env.md5hex c ++ post →
        TrimSpace s = env.md5hex c) ∧
      ((∃ x ∈ (env.md5hex c).data, x ∈ "abcdef".data) → s = upperCase (env.md5hex c) →
        TrimSpace s ≠ env.md5hex c)) := by
  have hblock : checksumBlock env f c =
      if TrimSpace s ≠ env.md5hex c then
        ([f ++ ".md5"], some ("configuration file calculated md5 '" ++
          env.md5hex c ++ "' does not match the provided md5 '" ++ s ++ "'"))
      else ([f ++ ".md5"], none) := by
    simp only [checksumBlock, Sprintf_sidecar, hside, Errorf, Sprintf_mismatch]
  refine ⟨?_, ?_, ?_, ?_⟩
  · rw [hblock]
    by_cases h : TrimSpace s = env.md5hex c <;> simp [h]
  · intro h
    simp only [loadFile, hfile, hblock, h, if_true, ne_eq, not_true_eq_false, if_false,
      Bool.false_eq_true]
    cases (env.UnmarshalStrict c).2 <;> rfl
  · intro h
    simp only [loadFile, hfile, hblock, h, if_true, ne_eq, not_false_eq_true]
  · intro hhex
    simp only [isHexDigest, decide_eq_true_eq] at hhex
    obtain ⟨hlen, hall⟩ := hhex
    refine ⟨fun pre post hpre hpost hs => ?_, fun ⟨x, hx, hletter⟩ hs htrim => ?_⟩
    · rw [hs]
      refine TrimSpace_pad pre _ post (fun h0 => ?_)
        (fun x hx => hexDigits_not_space x (hall x hx)) hpre hpost
      rw [h0] at hlen
      simp at hlen
    · have hx2 : x ∈ (TrimSpace s).data := by rw [htrim]; exact hx
      have hx3 := TrimSpace_data_subset s x hx2
      rw [hs] at hx3
      simp only [upperCase, List.mem_map] at hx3
      obtain ⟨y, hy, hyx⟩ := hx3
      exact hexDigits_upper y (hall y hy) (hyx ▸ hletter)

/-- Witness of C5: in the example file system the sidecar of `a.yml` holds the
digest between white space and the file loads; the sidecar of `upper.yml`
holds the digest in upper case and the load fails. -/
theorem loadFile_checksum_check_witness :
    (loadFile exampleEnv "a.yml" true).err = none ∧
    (loadFile exampleEnv "upper.yml" true).err =
      some ("configuration file calculated md5 '9e82319531a079ec46607f304bdc281f'" ++
        " does not match the provided md5 '9E82319531A079EC46607F304BDC281F'") := by
  obtain ⟨-, -, -, hA⟩ :=
    loadFile_checksum_check exampleEnv "a.yml" "groups: {dev: a, qa: a}"
      "  411ee739b5eb5ba7a470faeb65167296\n" rfl rfl
  obtain ⟨-, hpass, -, -⟩ :=
    loadFile_checksum_check exampleEnv "a.yml" "groups: {dev: a, qa: a}"
      "  411ee739b5eb5ba7a470faeb65167296\n" rfl rfl
  obtain ⟨-, -, hfail, hU⟩ :=
    loadFile_checksum_check exampleEnv "upper.yml" "groups: {dev: b}"
      "9E82319531A079EC46607F304BDC281F" rfl rfl
  refine ⟨?_, ?_⟩
  · rw [hpass ((hA (by decide)).1 "  " "\n" (by decide) (by decide) (by decide))]
    decide
  · exact hfail ((hU (by decide)).2 (by decide) (by decide))

/-! ## Claims on `ValidateBots` -/

theorem Sprintf_invalid_username (u : String) :
    Sprintf "invalid bot username %s" [u] = "invalid bot username " ++ u := by
  apply String.ext
  simp [Sprintf, formatVerbs]

theorem Sprintf_empty_email (u : String) :
    Sprintf "bot %s has an empty email" [u] = "bot " ++ u ++ " has an empty email" := by
  apply String.ext
  simp [Sprintf, formatVerbs]

/-- The loop of `ValidateBots` returns no error exactly when every bot is
valid. -/
theorem validateEach_eq_none (lib : RegexpLib) (r : lib.Regexp) (bots : List Bot) :
    validateEach lib r bots = none ↔
      ∀ b ∈ bots, lib.MatchString r b.Username = true ∧ b.Email ≠ "" := by
  induction bots with
  | nil => simp [validateEach]
  | cons b t ih =>
    simp only [validateEach, List.mem_cons, forall_eq_or_imp]
    cases hm : lib.MatchString r b.Username with
    | false => simp [Errorf]
    | true =>
      by_cases he : b.Email = ""
      · simp [he, Errorf]
      · simp [he, ih]

/-- The loop of `ValidateBots` stops at the first invalid bot. -/
theorem validateEach_first_invalid (lib : RegexpLib) (r : lib.Regexp)
    (pre : List Bot) (b : Bot) (post : List Bot)
    (hpre : ∀ x ∈ pre, lib.MatchString r x.Username = true ∧ x.Email ≠ "")
    (hb : ¬(lib.MatchString r b.Username = true ∧ b.Email ≠ "")) :
    validateEach lib r (pre ++ b :: post) =
      if lib.MatchString r b.Username = true then
        some ("bot " ++ b.Username ++ " has an empty email")
      else some ("invalid bot username " ++ b.Username) := by
  induction pre with
  | nil =>
    simp only [List.nil_append, validateEach, Errorf, Sprintf_invalid_username,
      Sprintf_empty_email]
    cases hm : lib.MatchString r b.Username with
    | false => simp
    | true =>
      have he : b.Email = "" := by
        by_contra h
        exact hb ⟨hm, h⟩
      simp [he]
  | cons x t ih =>
    obtain ⟨hx1, hx2⟩ := hpre x (List.mem_cons_self _ _)
    simp only [List.cons_append, validateEach, hx1, hx2, Bool.not_true, Bool.false_eq_true,
      if_false]
    exact ih (fun y hy => hpre y (List.mem_cons_of_mem _ hy))

/-- C6: for a pattern that compiles, `ValidateBots` returns no error if and
only if every bot's username matches the compiled pattern and every bot's
email is non-empty; so the empty list always passes. -/
theorem ValidateBots_ok_iff (lib : RegexpLib) (pattern : String) (r : lib.Regexp)
    (hcompile : lib.Compile pattern = .ok r) (bots : List Bot) :
    (ValidateBots lib bots pattern = none ↔
      ∀ b ∈ bots, lib.MatchString r b.Username = true ∧ b.Email ≠ "") ∧
    ValidateBots lib [] pattern = none := by
  simp only [ValidateBots, hcompile, validateEach_eq_none]
  simp

/-- Witness of C6: `ValidateBots([{bot1, a@b.com}], "^bot[0-9]+$")` returns no
error. -/
theorem ValidateBots_ok_iff_witness :
    ValidateBots exampleRegexp [⟨"bot1", "a@b.com"⟩] "^bot[0-9]+$" = none :=
  (ValidateBots_ok_iff exampleRegexp "^bot[0-9]+$" botExpr rfl [⟨"bot1", "a@b.com"⟩]).1.mpr
    (by decide)

/-- C7: for a pattern that compiles, when the bots before `b` are all valid
and `b` is not, `ValidateBots` returns the error of `b`, whatever bots follow:
`invalid bot username <username>` if the username of `b` does not match the
pattern (also when its email is empty too), `bot <username> has an empty
email` otherwise. -/
theorem ValidateBots_first_invalid (lib : RegexpLib) (pattern : String) (r : lib.Regexp)
    (hcompile : lib.Compile pattern = .ok r) (pre : List Bot) (b : Bot) (post : List Bot)
    (hpre : ∀ x ∈ pre, lib.MatchString r x.Username = true ∧ x.Email ≠ "")
    (hb : ¬(lib.MatchString r b.Username = true ∧ b.Email ≠ "")) :
    ValidateBots lib (pre ++ b :: post) pattern =
      if lib.MatchString r b.Username = true then
        some ("bot " ++ b.Username ++ " has an empty email")
      else some ("invalid bot username " ++ b.Username) := by
  simp only [ValidateBots, hcompile]
  exact validateEach_first_invalid lib r pre b post hpre hb

/-- Witness of C7: with `^bot[0-9]+$`, the bot `robot` fails on its username,
also when its email is empty and whatever follows it, and the bot `bot1`
without email fails on the empty email. -/
theorem ValidateBots_first_invalid_witness :
    ValidateBots exampleRegexp [⟨"robot", "a@b.com"⟩] "^bot[0-9]+$" =
      some "invalid bot username robot" ∧
    ValidateBots exampleRegexp [⟨"bot1", ""⟩] "^bot[0-9]+$" =
      some "bot bot1 has an empty email" ∧
    ValidateBots exampleRegexp [⟨"bot7", "x@y.org"⟩, ⟨"robot", ""⟩, ⟨"bot1", ""⟩]
      "^bot[0-9]+$" = some "invalid bot username robot" :=
  ⟨ValidateBots_first_invalid exampleRegexp "^bot[0-9]+$" botExpr rfl []
      ⟨"robot", "a@b.com"⟩ [] (by decide) (by decide),
    ValidateBots_first_invalid exampleRegexp "^bot[0-9]+$" botExpr rfl []
      ⟨"bot1", ""⟩ [] (by decide) (by decide),
    ValidateBots_first_invalid exampleRegexp "^bot[0-9]+$" botExpr rfl
      [⟨"bot7", "x@y.org"⟩] ⟨"robot", ""⟩ [⟨"bot1", ""⟩] (by decide) (by decide)⟩

/-! ## Claims on `DryRunAPIClient` -/

theorem Sprintf_add (u g l : String) :
    Sprintf "add '%s' to '%s' at level '%s'" [u, g, l] =
      "add '" ++ u ++ "' to '" ++ g ++ "' at level '" ++ l ++ "'" := by
  apply String.ext
  simp [Sprintf, formatVerbs]

theorem Sprintf_change (u g l : String) :
    Sprintf "change '%s' in '%s' at level '%s'" [u, g, l] =
      "change '" ++ u ++ "' in '" ++ g ++ "' at level '" ++ l ++ "'" := by
  apply String.ext
  simp [Sprintf, formatVerbs]

theorem Sprintf_remove (u g : String) :
    Sprintf "remove '%s' from '%s'" [u, g] = "remove '" ++ u ++ "' from '" ++ g ++ "'" := by
  apply String.ext
  simp [Sprintf, formatVerbs]

theorem Sprintf_share (p g l : String) :
    Sprintf "share project '%s' with group '%s' at level '%s'" [p, g, l] =
      "share project '" ++ p ++ "' with group '" ++ g ++ "' at level '" ++ l ++ "'" := by
  apply String.ext
  simp [Sprintf, formatVerbs]

theorem Sprintf_unshare (p g : String) :
    Sprintf "remove project sharing from '%s' with group '%s'" [p, g] =
      "remove project sharing from '" ++ p ++ "' with group '" ++ g ++ "'" := by
  apply String.ext
  simp [Sprintf, formatVerbs]

/-- A call on a client with a sink invokes the sink once, on one message, and
returns no error. -/
theorem DryRunAPIClient.perform_once {σ L : Type} [Stringer L] (m : DryRunAPIClient σ)
    (f : String → σ → σ) (h : m.Append = some f) (a : Action L) (st : σ) :
    ∃ msg, m.perform a st = some (f msg st, none) := by
  cases a <;>
    simp only [perform, AddGroupMembership, ChangeGroupMembership, RemoveGroupMembership,
      AddProjectSharing, RemoveProjectSharing, record, h] <;>
    exact ⟨_, rfl⟩

/-- C8: each of the five `DryRunAPIClient` operations passes to the sink
exactly its template with each argument substituted, in argument order,
between single quotes, and returns no error; so
`AddGroupMembership("alice", "team-x", maintainer)` records
`add 'alice' to 'team-x' at level 'maintainer'`. -/
theorem DryRunAPIClient.messages {σ L : Type} [Stringer L] (f : String → σ → σ) (st : σ) :
    (∀ (username group : String) (level : L),
      AddGroupMembership ⟨some f⟩ username group level st =
        some (f ("add '" ++ username ++ "' to '" ++ group ++ "' at level '" ++
          Stringer.String level ++ "'") st, none)) ∧
    (∀ (username group : String) (level : L),
      ChangeGroupMembership ⟨some f⟩ username group level st =
        some (f ("change '" ++ username ++ "' in '" ++ group ++ "' at level '" ++
          Stringer.String level ++ "'") st, none)) ∧
    (∀ username group : String,
      RemoveGroupMembership ⟨some f⟩ username group st =
        some (f ("remove '" ++ username ++ "' from '" ++ group ++ "'") st, none)) ∧
    (∀ (project group : String) (level : L),
      AddProjectSharing ⟨some f⟩ project group level st =
        some (f ("share project '" ++ project ++ "' with group '" ++ group ++
          "' at level '" ++ Stringer.String level ++ "'") st, none)) ∧
    (∀ project group : String,
      RemoveProjectSharing ⟨some f⟩ project group st =
        some (f ("remove project sharing from '" ++ project ++ "' with group '" ++
          group ++ "'") st, none)) ∧
    AddGroupMembership logging "alice" "team-x" Level.Maintainer [] =
      some (["add 'alice' to 'team-x' at level 'maintainer'"], none) := by
  refine ⟨fun u g l => ?_, fun u g l => ?_, fun u g => ?_, fun p g l => ?_, fun p g => ?_, ?_⟩
  · simp only [AddGroupMembership, record, Sprintf_add]
  · simp only [ChangeGroupMembership, record, Sprintf_change]
  · simp only [RemoveGroupMembership, record, Sprintf_remove]
  · simp only [AddProjectSharing, record, Sprintf_share]
  · simp only [RemoveProjectSharing, record, Sprintf_unshare]
  · decide

/-- C9: on a client with a sink, each of the five operations, on any
arguments, invokes the sink exactly once and returns no error: the sink state
after the call is one application of the sink to the state before. For a sink
that appends to a log, the log after the call is the log before plus exactly
one entry, the earlier entries unchanged; for a sink that counts its
invocations, the count goes up by one. -/
theorem DryRunAPIClient.one_record_no_error {σ L : Type} [Stringer L]
    (m : DryRunAPIClient σ) (f : String → σ → σ) (h : m.Append = some f) (a : Action L) :
    (∀ st, ∃ msg, m.perform a st = some (f msg st, none)) ∧
    (∀ log : List String, ∃ entry,
      logging.perform a log = some (log ++ [entry], none) ∧
      (log ++ [entry]).length = log.length + 1 ∧ log <+: log ++ [entry]) ∧
    (∀ n : Nat, counting.perform a n = some (n + 1, none)) := by
  refine ⟨fun st => perform_once m f h a st, fun log => ?_, fun n => ?_⟩
  · obtain ⟨msg, hmsg⟩ := perform_once logging _ rfl a log
    exact ⟨msg, hmsg, by simp, List.prefix_append _ _⟩
  · obtain ⟨msg, hmsg⟩ := perform_once counting _ rfl a n
    exact hmsg

/-- Witness of C9: revoking a membership through the logging client, after
one earlier entry. -/
theorem DryRunAPIClient.one_record_no_error_witness :
    ∃ msg, (logging.perform (Action.removeGroupMembership "alice" "team-x" : Action Level)
      ["earlier entry"]) = some (["earlier entry"] ++ [msg], none) :=
  (one_record_no_error logging _ rfl
    (Action.removeGroupMembership "alice" "team-x" : Action Level)).1 ["earlier entry"]

/-! ## Claims on the errors of `LoadConfig` -/

theorem Sprintf_load_file (f e : String) :
    Sprintf "failed to load file %s: %s" [f, e] = "failed to load file " ++ f ++ ": " ++ e := by
  apply String.ext
  simp [Sprintf, formatVerbs]

/-- The error `LoadConfig` returns for a listed file that fails to load
contains the path of that file. -/
theorem loadListed_error_names_file {Acls : Type} (env : Env Acls) (chk : Bool)
    (fs : List String) (c : Config Acls) (r : Loaded Acls) (e : String)
    (h : loadListed env chk fs c = some r) (he : r.err = some e) :
    ∃ f ∈ fs, (loadFile env f chk).err ≠ none ∧ Contains e f := by
  induction fs generalizing c r with
  | nil =>
    simp only [loadListed, Option.some.injEq] at h
    subst h
    simp at he
  | cons f t ih =>
    simp only [loadListed] at h
    cases hf : (loadFile env f chk).err with
    | some e1 =>
      simp only [hf, Option.some.injEq] at h
      subst h
      simp only [Errorf, Sprintf_load_file, Option.some.injEq] at he
      refine ⟨f, List.mem_cons_self _ _, by simp [hf], ?_⟩
      subst he
      exact ⟨"failed to load file ".data, (": " ++ e1).data, by simp⟩
    | none =>
      simp only [hf] at h
      cases hm : mergeConfigs c (loadFile env f chk).config with
      | none => simp [hm] at h
      | some c1 =>
        simp only [hm] at h
        cases hl : loadListed env chk t c1 with
        | none => simp [hl] at h
        | some r1 =>
          simp only [hl, Option.some.injEq] at h
          subst h
          obtain ⟨g, hg, hgerr, hgc⟩ := ih c1 r1 hl he
          exact ⟨g, List.mem_cons_of_mem _ hg, hgerr, hgc⟩

/-- The error `LoadConfig` returns when the checksum of the root file does
not match is the bare mismatch message of `loadFile`. -/
theorem LoadConfig_root_mismatch {Acls : Type} (env : Env Acls) (root c s : String)
    (hfile : env.ReadFile root = .ok c) (hside : env.ReadFile (root ++ ".md5") = .ok s)
    (hne : TrimSpace s ≠ env.md5hex c) :
    ∃ r, LoadConfig env root true = some r ∧
      r.err = some ("configuration file calculated md5 '" ++ env.md5hex c ++
        "' does not match the provided md5 '" ++ s ++ "'") := by
  have h : (loadFile env root true).err = some ("configuration file calculated md5 '" ++
      env.md5hex c ++ "' does not match the provided md5 '" ++ s ++ "'") := by
    simp only [loadFile, checksumBlock, Sprintf_sidecar, hfile, hside, Errorf,
      Sprintf_mismatch, hne, if_true, ne_eq, not_false_eq_true]
  exact ⟨⟨(loadFile env root true).reads, initConfig, _⟩, by simp only [LoadConfig, h], rfl⟩

set_option maxRecDepth 100000 in
/-- C10 fails on the code: in the example file system the sidecar of the root
file `bad.yml` holds another digest, and the error `LoadConfig` returns is the
mismatch message, in which the path `bad.yml` does not occur. -/
theorem LoadConfig_root_checksum_error_lacks_path :
    (LoadConfig exampleEnv "bad.yml" true).map (fun r => r.err) =
      some (some ("configuration file calculated md5 '595f426b000c1d269a02825ad28c7328'" ++
        " does not match the provided md5 '9e82319531a079ec46607f304bdc281f'")) ∧
    ¬ Contains ("configuration file calculated md5 '595f426b000c1d269a02825ad28c7328'" ++
        " does not match the provided md5 '9e82319531a079ec46607f304bdc281f'") "bad.yml" ∧
    (LoadConfig exampleEnv "root.yml" true).map (fun r => r.err) = some none := by
  refine ⟨by decide, by decide, by decide⟩

/-! ## Claims on the frame of `mergeConfigs` and on a pattern that does not compile -/

/-- C12: `mergeConfigs` leaves the aggregate's `Files` unchanged whatever the
incoming configuration and its own `Files` list are: whenever the call
returns, `Files` is the aggregate's original list, and the call on an incoming
configuration with any other `Files` list returns the same aggregate; it
returns whenever the aggregate's maps are allocated. The fields it does
change are `Groups`, `Projects`, `Users.Admins`, `Users.Blocked` and `Bots`,
the only other fields there are. -/
theorem mergeConfigs_keeps_Files {Acls : Type} (A B : Config Acls) :
    (∀ R, mergeConfigs A B = some R → R.Files = A.Files) ∧
    (∀ F, mergeConfigs A { B with Files := F } = mergeConfigs A B) ∧
    (A.Groups.isAlloc = true → A.Projects.isAlloc = true →
      ∃ R, mergeConfigs A B = some R ∧ R.Files = A.Files) := by
  refine ⟨fun R hR => ?_, fun F => rfl, fun hG hP => ?_⟩
  · unfold mergeConfigs at hR
    cases hg : rangeAssign A.Groups B.Groups.range with
    | none => simp [hg] at hR
    | some g =>
      cases hp : rangeAssign A.Projects B.Projects.range with
      | none => simp [hg, hp] at hR
      | some p =>
        simp only [hg, hp, Option.some.injEq] at hR
        subst hR
        rfl
  · obtain ⟨R, hR, -, -, hF, -⟩ := mergeConfigs_some A B hG hP
    exact ⟨R, hR, hF⟩

/-- Witness of C12: merging `exampleIncoming`, which lists `ignored.yml`, into
`exampleAggregate` leaves the aggregate's files list `a.yml`. -/
theorem mergeConfigs_keeps_Files_witness :
    ∃ R, mergeConfigs exampleAggregate exampleIncoming = some R ∧ R.Files = ["a.yml"] :=
  (mergeConfigs_keeps_Files exampleAggregate exampleIncoming).2.2 rfl rfl

theorem Sprintf_regex_validator (e : String) :
    Sprintf "invalid bot username regex validator: %s" [e] =
      "invalid bot username regex validator: " ++ e := by
  apply String.ext
  simp [Sprintf, formatVerbs]

/-- C13: when the username pattern does not compile, `ValidateBots` returns
the error `invalid bot username regex validator: ` followed by the compile
error, for every list of bots, the empty list and lists of invalid bots
included; no bot is examined: the result is the same whatever `MatchString`
would answer. -/
theorem ValidateBots_bad_pattern (lib : RegexpLib) (pattern e : String)
    (hcompile : lib.Compile pattern = .error e) (bots : List Bot) :
    ValidateBots lib bots pattern = some ("invalid bot username regex validator: " ++ e) ∧
    ValidateBots lib [] pattern = some ("invalid bot username regex validator: " ++ e) ∧
    (∀ answer : lib.Regexp → String → Bool,
      ValidateBots { lib with MatchString := answer } bots pattern =
        ValidateBots lib bots pattern) := by
  refine ⟨?_, ?_, fun answer => ?_⟩ <;>
    simp only [ValidateBots, hcompile, Errorf, Sprintf_regex_validator]

/-- Witness of C13: the example library does not compile `(`, and a list with
an invalid bot gets the pattern error, not the bot's. -/
theorem ValidateBots_bad_pattern_witness :
    ValidateBots exampleRegexp [⟨"robot", ""⟩] "(" =
      some ("invalid bot username regex validator: " ++
        "error parsing regexp: unsupported pattern: (") :=
  (ValidateBots_bad_pattern exampleRegexp "("
    "error parsing regexp: unsupported pattern: (" rfl [⟨"robot", ""⟩]).1

/-! ## Lemmas on failing loads -/

/-- The result of `loadFile` depends on the environment only through the
decoder, the digest when checksums are verified, and the files it reads. -/
theorem loadFile_agree {Acls : Type} (env env2 : Env Acls)
    (hparse : env2.UnmarshalStrict = env.UnmarshalStrict) (f : String) (chk : Bool)
    (hmd5 : chk = true → env2.md5hex = env.md5hex)
    (hread : ∀ p ∈ (loadFile env f chk).reads, env2.ReadFile p = env.ReadFile p) :
    loadFile env2 f chk = loadFile env f chk := by
  rw [loadFile_reads] at hread
  cases hr : env.ReadFile f with
  | error e =>
    rw [hr] at hread
    have hf : env2.ReadFile f = .error e := (hread f (by simp)).trans hr
    simp only [loadFile, hf, hr]
  | ok content =>
    rw [hr] at hread
    cases chk with
    | false =>
      have hf : env2.ReadFile f = .ok content := (hread f (by simp)).trans hr
      simp only [loadFile, hf, hr, hparse, Bool.false_eq_true, if_false]
    | true =>
      have hf : env2.ReadFile f = .ok content := (hread f (by simp)).trans hr
      have hs : env2.ReadFile (f ++ ".md5") = env.ReadFile (f ++ ".md5") :=
        hread (f ++ ".md5") (by simp)
      have hb : checksumBlock env2 f content = checksumBlock env f content := by
        simp only [checksumBlock, Sprintf_sidecar, hs, hmd5 rfl]
      simp only [loadFile, hf, hr, hparse, hb]

theorem loadListed_agree {Acls : Type} (env env2 : Env Acls)
    (hparse : env2.UnmarshalStrict = env.UnmarshalStrict) (chk : Bool)
    (hmd5 : chk = true → env2.md5hex = env.md5hex)
    (fs : List String) (c : Config Acls) (r : Loaded Acls)
    (h : loadListed env chk fs c = some r)
    (hread : ∀ p ∈ r.reads, env2.ReadFile p = env.ReadFile p) :
    loadListed env2 chk fs c = some r := by
  induction fs generalizing c r with
  | nil => exact h
  | cons f t ih =>
    simp only [loadListed] at h
    cases hf : (loadFile env f chk).err with
    | some e =>
      simp only [hf, Option.some.injEq] at h
      subst h
      have hl := loadFile_agree env env2 hparse f chk hmd5 hread
      simp only [loadListed, hl, hf]
    | none =>
      simp only [hf] at h
      cases hm : mergeConfigs c (loadFile env f chk).config with
      | none => simp [hm] at h
      | some c1 =>
        simp only [hm] at h
        cases hl : loadListed env chk t c1 with
        | none => simp [hl] at h
        | some r1 =>
          simp only [hl, Option.some.injEq] at h
          subst h
          have hl1 := loadFile_agree env env2 hparse f chk hmd5
            (fun p hp => hread p (List.mem_append_left _ hp))
          have hl2 := ih c1 r1 hl (fun p hp => hread p (List.mem_append_right _ hp))
          simp only [loadListed, hl1, hf, hm, hl2]

/-- The result of `LoadConfig` depends on the environment only through the
decoder, the digest when checksums are verified, and the files the run
reads. -/
theorem LoadConfig_agree {Acls : Type} (env env2 : Env Acls)
    (hparse : env2.UnmarshalStrict = env.UnmarshalStrict) (chk : Bool)
    (hmd5 : chk = true → env2.md5hex = env.md5hex)
    (root : String) (r : Loaded Acls) (h : LoadConfig env root chk = some r)
    (hread : ∀ p ∈ r.reads, env2.ReadFile p = env.ReadFile p) :
    LoadConfig env2 root chk = some r := by
  simp only [LoadConfig] at h
  cases hf : (loadFile env root chk).err with
  | some e =>
    simp only [hf, Option.some.injEq] at h
    subst h
    have hl := loadFile_agree env env2 hparse root chk hmd5 hread
    simp only [LoadConfig, hl, hf]
  | none =>
    simp only [hf] at h
    cases hm : mergeConfigs initConfig (loadFile env root chk).config with
    | none => simp [hm] at h
    | some c1 =>
      simp only [hm] at h
      cases hl : loadListed env chk (loadFile env root chk).config.Files
          { c1 with Files := (loadFile env root chk).config.Files } with
      | none => simp [hl] at h
      | some r1 =>
        simp only [hl, Option.some.injEq] at h
        subst h
        have hl1 := loadFile_agree env env2 hparse root chk hmd5
          (fun p hp => hread p (List.mem_append_left _ hp))
        have hl2 := loadListed_agree env env2 hparse chk hmd5 _ _ r1 hl
          (fun p hp => hread p (List.mem_append_right _ hp))
        simp only [LoadConfig, hl1, hf, hm, hl2]

/-- The loop of `LoadConfig` returns an error exactly when a listed file
fails to load. -/
theorem loadListed_err_iff {Acls : Type} (env : Env Acls) (chk : Bool)
    (fs : List String) (c : Config Acls) (r : Loaded Acls)
    (h : loadListed env chk fs c = some r) :
    r.err ≠ none ↔ ∃ f ∈ fs, (loadFile env f chk).err ≠ none := by
  induction fs generalizing c r with
  | nil =>
    simp only [loadListed, Option.some.injEq] at h
    subst h
    simp
  | cons f t ih =>
    simp only [loadListed] at h
    cases hf : (loadFile env f chk).err with
    | some e =>
      simp only [hf, Option.some.injEq] at h
      subst h
      simp [Errorf, hf]
    | none =>
      simp only [hf] at h
      cases hm : mergeConfigs c (loadFile env f chk).config with
      | none => simp [hm] at h
      | some c1 =>
        simp only [hm] at h
        cases hl : loadListed env chk t c1 with
        | none => simp [hl] at h
        | some r1 =>
          simp only [hl, Option.some.injEq] at h
          subst h
          have h1 := ih c1 r1 hl
          simp only [List.mem_cons, exists_eq_or_imp, hf, ne_eq, not_true_eq_false, false_or]
          exact h1

/-- When the listed files before `f` load and `f` does not, the loop of
`LoadConfig` stops at `f`: it has merged the files before `f`, read nothing
after `f`, and returns the error of `f` behind the path of `f`. -/
theorem loadListed_fail {Acls : Type} (env : Env Acls) (chk : Bool)
    (pre : List String) (f : String) (post : List String) (e : String)
    (c : Config Acls) (hG : c.Groups.isAlloc = true) (hP : c.Projects.isAlloc = true)
    (hpre : ∀ x ∈ pre, (loadFile env x chk).err = none)
    (hf : (loadFile env f chk).err = some e) :
    ∃ merged,
      List.foldlM mergeConfigs c (pre.map fun x => (loadFile env x chk).config) = some merged ∧
      loadListed env chk (pre ++ f :: post) c =
        some ⟨pathsRead chk pre ++ (loadFile env f chk).reads, merged,
          some ("failed to load file " ++ f ++ ": " ++ e)⟩ := by
  induction pre generalizing c with
  | nil =>
    refine ⟨c, rfl, ?_⟩
    simp only [List.nil_append, loadListed, hf, Errorf, Sprintf_load_file]
    simp [pathsRead]
  | cons x t ih =>
    have hx : (loadFile env x chk).err = none := hpre x (List.mem_cons_self _ _)
    obtain ⟨c1, hm, hga, hpa, -, -⟩ := mergeConfigs_some c (loadFile env x chk).config hG hP
    obtain ⟨merged, h1, h2⟩ := ih c1 hga hpa (fun y hy => hpre y (List.mem_cons_of_mem _ hy))
    refine ⟨merged, ?_, ?_⟩
    · rw [List.map_cons, List.foldlM_cons, hm]
      exact h1
    · simp only [List.cons_append, loadListed, hx, hm]
      rw [show t.append (f :: post) = t ++ f :: post from rfl, h2]
      simp only [loadFile_reads_of_ok env x chk hx, pathsRead, List.flatMap_cons,
        List.append_assoc]

/-- The function `LoadConfig` returns an error exactly when the root or a
listed file fails to load. -/
theorem LoadConfig_fails_iff {Acls : Type} (env : Env Acls) (root : String) (chk : Bool) :
    ∃ r, LoadConfig env root chk = some r ∧
      (r.err ≠ none ↔ ((loadFile env root chk).err ≠ none ∨
        ∃ f ∈ (loadFile env root chk).config.Files, (loadFile env f chk).err ≠ none)) := by
  cases hf : (loadFile env root chk).err with
  | some e =>
    exact ⟨⟨(loadFile env root chk).reads, initConfig, some e⟩,
      by simp only [LoadConfig, hf], by simp⟩
  | none =>
    obtain ⟨c0, hm0, hga0, hpa0, -, -⟩ :=
      mergeConfigs_some initConfig (loadFile env root chk).config rfl rfl
    obtain ⟨r1, hr1, -, -⟩ :=
      loadListed_total env chk (loadFile env root chk).config.Files
        { c0 with Files := (loadFile env root chk).config.Files } hga0 hpa0
    refine ⟨⟨(loadFile env root chk).reads ++ r1.reads, r1.config, r1.err⟩,
      by simp only [LoadConfig, hf, hm0, hr1], ?_⟩
    simp only [ne_eq, not_true_eq_false, false_or]
    exact loadListed_err_iff env chk _ _ r1 hr1

/-! ## Claims on failing loads -/

/-- C11: `LoadConfig` returns an error if and only if the root file or a file
of the root's files list fails to load. The error is that of the first
failing file in load order: the root's own error, or, when the root and the
listed files before `f` load and `f` does not, the error of `f` behind
`failed to load file f: `. Loading stops there: nothing is read after the
failing file, and the result is the same in every environment that agrees on
the files read, whatever the later files hold and whether they exist. -/
theorem LoadConfig_error_iff_first_failure {Acls : Type} (env : Env Acls) (root : String)
    (chk : Bool) :
    ∃ r, LoadConfig env root chk = some r ∧
      (r.err ≠ none ↔ ((loadFile env root chk).err ≠ none ∨
        ∃ f ∈ (loadFile env root chk).config.Files, (loadFile env f chk).err ≠ none)) ∧
      (∀ e, (loadFile env root chk).err = some e →
        r.err = some e ∧ r.reads = (loadFile env root chk).reads) ∧
      (∀ pre f post e, (loadFile env root chk).err = none →
        (loadFile env root chk).config.Files = pre ++ f :: post →
        (∀ x ∈ pre, (loadFile env x chk).err = none) →
        (loadFile env f chk).err = some e →
        r.err = some ("failed to load file " ++ f ++ ": " ++ e) ∧
        r.reads = pathsRead chk (root :: pre) ++ (loadFile env f chk).reads) ∧
      (∀ env2 : Env Acls, env2.UnmarshalStrict = env.UnmarshalStrict →
        env2.md5hex = env.md5hex →
        (∀ p ∈ r.reads, env2.ReadFile p = env.ReadFile p) →
        LoadConfig env2 root chk = some r) := by
  cases hf : (loadFile env root chk).err with
  | some e =>
    have hr : LoadConfig env root chk = some ⟨(loadFile env root chk).reads, initConfig, some e⟩ := by
      simp only [LoadConfig, hf]
    refine ⟨_, hr, by simp, fun e1 he1 => ⟨by simp [← he1], rfl⟩,
      fun pre f post e1 h0 => by simp at h0,
      fun env2 h1 h2 h3 => LoadConfig_agree env env2 h1 chk (fun _ => h2) root _ hr h3⟩
  | none =>
    obtain ⟨c0, hm0, hga0, hpa0, -, -⟩ :=
      mergeConfigs_some initConfig (loadFile env root chk).config rfl rfl
    obtain ⟨r1, hr1, -, -⟩ :=
      loadListed_total env chk (loadFile env root chk).config.Files
        { c0 with Files := (loadFile env root chk).config.Files } hga0 hpa0
    have hr : LoadConfig env root chk =
        some ⟨(loadFile env root chk).reads ++ r1.reads, r1.config, r1.err⟩ := by
      simp only [LoadConfig, hf, hm0, hr1]
    refine ⟨_, hr, ?_, fun e1 he1 => by simp at he1, fun pre f post e hroot hF hpre hfe => ?_,
      fun env2 h1 h2 h3 => LoadConfig_agree env env2 h1 chk (fun _ => h2) root _ hr h3⟩
    · simp only [ne_eq, not_true_eq_false, false_or]
      exact loadListed_err_iff env chk _ _ r1 hr1
    · obtain ⟨merged, -, h2⟩ :=
        loadListed_fail env chk pre f post e
          { c0 with Files := (loadFile env root chk).config.Files } hga0 hpa0 hpre hfe
      rw [← hF, hr1, Option.some.injEq] at h2
      subst h2
      refine ⟨rfl, ?_⟩
      simp only [loadFile_reads_of_ok env root chk hf, pathsRead, List.flatMap_cons,
        List.append_assoc]

/-- C16: on failure `LoadConfig` returns a configuration next to the error.
When the root file fails it is the initialized empty configuration. When the
root and the listed files before `f` load and `f` does not, it is the merge
of the root and of the files before `f`, with `Files` the root's list: it is
not reset to an empty configuration. -/
theorem LoadConfig_partial_on_failure {Acls : Type} (env : Env Acls) (root : String)
    (chk : Bool) :
    (∀ e, (loadFile env root chk).err = some e →
      ∃ r, LoadConfig env root chk = some r ∧ r.err = some e ∧ r.config = initConfig ∧
        r.config.Groups.range = [] ∧ r.config.Projects.range = [] ∧
        r.config.Users.Admins = [] ∧ r.config.Users.Blocked = [] ∧ r.config.Bots = []) ∧
    (∀ pre f post e, (loadFile env root chk).err = none →
      (loadFile env root chk).config.Files = pre ++ f :: post →
      (∀ x ∈ pre, (loadFile env x chk).err = none) →
      (loadFile env f chk).err = some e →
      ∃ merged r,
        List.foldlM mergeConfigs initConfig
          ((loadFile env root chk).config :: pre.map fun x => (loadFile env x chk).config)
          = some merged ∧
        LoadConfig env root chk = some r ∧ r.err ≠ none ∧
        r.config = { merged with Files := pre ++ f :: post }) := by
  refine ⟨fun e he => ?_, fun pre f post e hroot hF hpre hfe => ?_⟩
  · exact ⟨⟨(loadFile env root chk).reads, initConfig, some e⟩,
      by simp only [LoadConfig, he], rfl, rfl, rfl, rfl, rfl, rfl, rfl⟩
  · obtain ⟨c0, hm0, hga0, hpa0, -, -⟩ :=
      mergeConfigs_some initConfig (loadFile env root chk).config rfl rfl
    obtain ⟨merged2, hfold2, hloop⟩ :=
      loadListed_fail env chk pre f post e
        { c0 with Files := (loadFile env root chk).config.Files } hga0 hpa0 hpre hfe
    rw [foldlM_mergeConfigs_setFiles] at hfold2
    cases hfold : List.foldlM mergeConfigs c0
        (pre.map fun x => (loadFile env x chk).config) with
    | none => simp [hfold] at hfold2
    | some merged =>
      rw [hfold] at hfold2
      have hmerged2 :
          merged2 = { merged with Files := (loadFile env root chk).config.Files } :=
        (Option.some.inj hfold2).symm
      subst hmerged2
      rw [← hF] at hloop ⊢
      refine ⟨merged,
        ⟨(loadFile env root chk).reads ++
            (pathsRead chk pre ++ (loadFile env f chk).reads),
          { merged with Files := (loadFile env root chk).config.Files },
          some ("failed to load file " ++ f ++ ": " ++ e)⟩, ?_, ?_, by simp, rfl⟩
      · rw [List.foldlM_cons, hm0]
        exact hfold
      · simp only [LoadConfig, hroot, hm0, hloop]

set_option maxRecDepth 100000 in
/-- Witness of C11: without `a.yml`, loading `root.yml` fails on `a.yml`, the
first listed file, and the result is the same when `b.yml`, listed after it,
holds something else. -/
theorem LoadConfig_error_iff_first_failure_witness :
    ∃ r, LoadConfig (withoutFile exampleEnv "a.yml") "root.yml" true = some r ∧
      r.err = some ("failed to load file a.yml: failed to load state file a.yml: " ++
        "open a.yml: no such file or directory") ∧
      r.reads = ["root.yml", "root.yml.md5", "a.yml"] ∧
      LoadConfig (withFile (withoutFile exampleEnv "a.yml") "b.yml" "colour: blue")
        "root.yml" true = some r := by
  obtain ⟨r, hr, -, -, hlisted, hagree⟩ :=
    LoadConfig_error_iff_first_failure (withoutFile exampleEnv "a.yml") "root.yml" true
  obtain ⟨herr, hreads⟩ := hlisted [] "a.yml" ["b.yml"]
    "failed to load state file a.yml: open a.yml: no such file or directory"
    (by decide) (by decide) (by simp) (by decide)
  have hreads2 : r.reads = ["root.yml", "root.yml.md5", "a.yml"] := by
    rw [hreads]
    decide
  refine ⟨r, hr, herr, hreads2, hagree _ rfl rfl (fun p hp => ?_)⟩
  rw [hreads2] at hp
  simp only [List.mem_cons, List.mem_singleton, List.not_mem_nil, or_false] at hp
  rcases hp with h | h | h <;> subst h <;> rfl

set_option maxRecDepth 100000 in
/-- Witness of C16: without `b.yml`, loading `root.yml` fails on `b.yml` and
returns, next to the error, the groups of `a.yml` and the root's files list. -/
theorem LoadConfig_partial_on_failure_witness :
    ∃ r, LoadConfig (withoutFile exampleEnv "b.yml") "root.yml" true = some r ∧
      r.err ≠ none ∧ r.config.Groups.get? "dev" = some "a" ∧
      r.config.Groups.get? "qa" = some "a" ∧ r.config.Files = ["a.yml", "b.yml"] := by
  obtain ⟨merged, r, hfold, hr, herr, hcfg⟩ :=
    (LoadConfig_partial_on_failure (withoutFile exampleEnv "b.yml") "root.yml" true).2
      ["a.yml"] "b.yml" []
      "failed to load state file b.yml: open b.yml: no such file or directory"
      (by decide) (by decide) (by decide) (by decide)
  have hd : (List.foldlM mergeConfigs initConfig
      ((loadFile (withoutFile exampleEnv "b.yml") "root.yml" true).config ::
        ["a.yml"].map fun x => (loadFile (withoutFile exampleEnv "b.yml") x true).config)).map
      (fun m => (m.Groups.get? "dev", m.Groups.get? "qa")) = some (some "a", some "a") := by
    decide
  rw [hfold] at hd
  simp only [Option.map_some', Option.some.injEq, Prod.mk.injEq] at hd
  refine ⟨r, hr, herr, ?_, ?_, ?_⟩
  · rw [hcfg]
    exact hd.1
  · rw [hcfg]
    exact hd.2
  · rw [hcfg]
    rfl

/-! ## Claims on loading without checksum and on strict decoding -/

theorem Sprintf_unmarshal (f e : String) :
    Sprintf "failed to unmarshal state file %s: %s" [f, e] =
      "failed to unmarshal state file " ++ f ++ ": " ++ e := by
  apply String.ext
  simp [Sprintf, formatVerbs]

/-- What `loadFile` returns for a readable file when checksums are not
verified: the decoder's configuration, and its error behind the file's path. -/
theorem loadFile_unchecked {Acls : Type} (env : Env Acls) (f c : String)
    (hfile : env.ReadFile f = .ok c) :
    loadFile env f false =
      ⟨[f], (env.UnmarshalStrict c).1,
        (env.UnmarshalStrict c).2.map fun e =>
          "failed to unmarshal state file " ++ f ++ ": " ++ e⟩ := by
  simp only [loadFile, hfile, Bool.false_eq_true, if_false, Errorf, Sprintf_unmarshal]
  cases (env.UnmarshalStrict c).2 <;> rfl

/-- C17: with checksum verification off, `loadFile` never consults the
sidecar. It reads the file alone, and in any environment with the same
decoder and the same file at `f` (the sidecar missing, unreadable, matching
or not) it returns the same result, which for a readable file is the strict
decoding of its content. So `LoadConfig(root, false)` is the same in any
environment with the same decoder and the same files at the root and at the
paths of the root's files list. -/
theorem loadFile_unchecked_ignores_sidecar {Acls : Type} (env env2 : Env Acls)
    (hparse : env2.UnmarshalStrict = env.UnmarshalStrict) (f : String)
    (hf : env2.ReadFile f = env.ReadFile f) :
    loadFile env2 f false = loadFile env f false ∧
    (loadFile env f false).reads = [f] ∧
    (∀ c, env.ReadFile f = .ok c →
      (loadFile env f false).config = (env.UnmarshalStrict c).1 ∧
      (loadFile env f false).err = (env.UnmarshalStrict c).2.map fun e =>
        "failed to unmarshal state file " ++ f ++ ": " ++ e) ∧
    (∀ root,
      (∀ p ∈ root :: (loadFile env root false).config.Files,
        env2.ReadFile p = env.ReadFile p) →
      LoadConfig env2 root false = LoadConfig env root false) := by
  have hreads : (loadFile env f false).reads = [f] := by
    rw [loadFile_reads]
    cases env.ReadFile f <;> rfl
  refine ⟨?_, hreads, fun c hc => ?_, fun root hroot => ?_⟩
  · refine loadFile_agree env env2 hparse f false (fun h => by simp at h) (fun p hp => ?_)
    rw [hreads, List.mem_singleton] at hp
    rw [hp]
    exact hf
  · rw [loadFile_unchecked env f c hc]
    exact ⟨rfl, rfl⟩
  · obtain ⟨r, hr, hsub, -⟩ := LoadConfig_total env root false
    rw [hr]
    refine LoadConfig_agree env env2 hparse false (fun h => by simp at h) root r hr
      (fun p hp => hroot p ?_)
    have h1 := hsub p hp
    simpa [pathsRead] using h1

/-- Witness of C17: with verification off `bad.yml`, whose sidecar holds
another digest, loads without error, and loads the same when the sidecar
does not exist. -/
theorem loadFile_unchecked_ignores_sidecar_witness :
    loadFile (withoutFile exampleEnv "bad.yml.md5") "bad.yml" false =
      loadFile exampleEnv "bad.yml" false ∧
    (loadFile exampleEnv "bad.yml" false).reads = ["bad.yml"] ∧
    (loadFile exampleEnv "bad.yml" false).err = none ∧
    (loadFile exampleEnv "bad.yml" true).err ≠ none := by
  obtain ⟨h1, h2, h3, -⟩ :=
    loadFile_unchecked_ignores_sidecar exampleEnv (withoutFile exampleEnv "bad.yml.md5") rfl
      "bad.yml" rfl
  exact ⟨h1, h2, (h3 "files: [a.yml, b.yml]" rfl).2.trans (by decide), by decide⟩

/-! ## Claims on the algebra of `mergeConfigs` -/

theorem rangeAssign_nil_dst {V : Type} (l : List (Sigma fun _ : String => V)) (r : GoMap V)
    (h : rangeAssign .nil l = some r) : l = [] ∧ r = .nil := by
  cases l with
  | nil =>
    simp only [rangeAssign, Option.some.injEq] at h
    exact ⟨rfl, h.symm⟩
  | cons e t => simp [rangeAssign, GoMap.assign] at h

theorem GoMap.get?_of_range_nil {V : Type} (m : GoMap V) (h : m.range = []) (k : String) :
    m.get? k = none := by
  cases m with
  | nil => rfl
  | alloc s =>
    simp only [GoMap.range] at h
    simp only [GoMap.get?, AList.lookup, h, List.dlookup_nil]

/-- Reading a key after the loop `for k, v := range src { dst[k] = v }`,
whenever the loop returns. -/
theorem rangeAssign_get_of_some {V : Type} (dst src r : GoMap V)
    (h : rangeAssign dst src.range = some r) (k : String) :
    r.get? k = match src.get? k with
      | some v => some v
      | none => dst.get? k := by
  cases dst with
  | nil =>
    obtain ⟨h1, h2⟩ := rangeAssign_nil_dst _ r h
    rw [h2, GoMap.get?_of_range_nil src h1 k]
  | alloc m =>
    obtain ⟨r2, hr2, -, hk⟩ := rangeAssign_get (.alloc m) src rfl
    rw [h, Option.some.injEq] at hr2
    rw [hr2]
    exact hk k

theorem rangeAssign_assoc {V : Type} (a b c ab l bc r : GoMap V)
    (h1 : rangeAssign a b.range = some ab) (h2 : rangeAssign ab c.range = some l)
    (h3 : rangeAssign b c.range = some bc) (h4 : rangeAssign a bc.range = some r)
    (k : String) : l.get? k = r.get? k := by
  rw [rangeAssign_get_of_some ab c l h2 k, rangeAssign_get_of_some a b ab h1 k,
    rangeAssign_get_of_some a bc r h4 k, rangeAssign_get_of_some b c bc h3 k]
  cases c.get? k <;> rfl

/-- What `mergeConfigs` returns, when it returns. -/
theorem mergeConfigs_eq_some {Acls : Type} (c cc r : Config Acls)
    (h : mergeConfigs c cc = some r) :
    rangeAssign c.Groups cc.Groups.range = some r.Groups ∧
    rangeAssign c.Projects cc.Projects.range = some r.Projects ∧
    r.Users = { Admins := c.Users.Admins ++ cc.Users.Admins,
                Blocked := c.Users.Blocked ++ cc.Users.Blocked } ∧
    r.Bots = c.Bots ++ cc.Bots := by
  unfold mergeConfigs at h
  cases hg : rangeAssign c.Groups cc.Groups.range with
  | none => simp [hg] at h
  | some g =>
    cases hp : rangeAssign c.Projects cc.Projects.range with
    | none => simp [hg, hp] at h
    | some p =>
      simp only [hg, hp, Option.some.injEq] at h
      subst h
      simp [appendEach_eq]

theorem mergeConfigs_zero {Acls : Type} (A : Config Acls) :
    mergeConfigs A Config.zero = some A ∧ mergeConfigs A initConfig = some A := by
  constructor <;> rfl

/-- C15 fails on the code as stated: merging the zero configuration (nil
maps) and then `exampleIncoming` into the initialized configuration returns,
whereas merging `exampleIncoming` into the zero configuration first panics. -/
theorem mergeConfigs_grouping_can_panic :
    (mergeOneByOne (initConfig : Config String) Config.zero exampleIncoming).isSome = true ∧
    (mergeGrouped (initConfig : Config String) Config.zero exampleIncoming).isSome = false ∧
    mergeConfigs (Config.zero : Config String) exampleIncoming = none := by
  refine ⟨by decide, by decide, rfl⟩

/-- C15, amended: whenever merging `B` then `C` into `A` and merging into `A`
the result of merging `C` into `B` both return, they give the same `Groups`
and `Projects` (the same ACL at every key), `Admins`, `Blocked` and `Bots`;
both return when the maps of `A` and of `B` are allocated. Merging an empty
configuration (with nil or with allocated empty maps) into `A` leaves `A`
unchanged. -/
theorem mergeConfigs_assoc_when_defined {Acls : Type} (A B C : Config Acls) :
    (∀ L R, mergeOneByOne A B C = some L → mergeGrouped A B C = some R → sameMerged L R) ∧
    (A.Groups.isAlloc = true → A.Projects.isAlloc = true →
      B.Groups.isAlloc = true → B.Projects.isAlloc = true →
      ∃ L R, mergeOneByOne A B C = some L ∧ mergeGrouped A B C = some R ∧ sameMerged L R) ∧
    mergeConfigs A Config.zero = some A ∧ mergeConfigs A initConfig = some A := by
  have hsame : ∀ L R, mergeOneByOne A B C = some L → mergeGrouped A B C = some R →
      sameMerged L R := by
    intro L R hL hR
    simp only [mergeOneByOne, Option.bind_eq_some] at hL
    simp only [mergeGrouped, Option.bind_eq_some] at hR
    obtain ⟨ab, hab, hl⟩ := hL
    obtain ⟨bc, hbc, hr⟩ := hR
    obtain ⟨g1, p1, u1, b1⟩ := mergeConfigs_eq_some A B ab hab
    obtain ⟨g2, p2, u2, b2⟩ := mergeConfigs_eq_some ab C L hl
    obtain ⟨g3, p3, u3, b3⟩ := mergeConfigs_eq_some B C bc hbc
    obtain ⟨g4, p4, u4, b4⟩ := mergeConfigs_eq_some A bc R hr
    refine ⟨fun k => rangeAssign_assoc _ _ _ _ _ _ _ g1 g2 g3 g4 k,
      fun k => rangeAssign_assoc _ _ _ _ _ _ _ p1 p2 p3 p4 k, ?_, ?_⟩
    · rw [u2, u4, u1, u3]
      simp
    · rw [b2, b4, b1, b3]
      simp
  refine ⟨hsame, fun hAG hAP hBG hBP => ?_, (mergeConfigs_zero A).1, (mergeConfigs_zero A).2⟩
  obtain ⟨ab, hab, habG, habP, -, -⟩ := mergeConfigs_some A B hAG hAP
  obtain ⟨L, hL, -⟩ := mergeConfigs_some ab C habG habP
  obtain ⟨bc, hbc, -⟩ := mergeConfigs_some B C hBG hBP
  obtain ⟨R, hR, -⟩ := mergeConfigs_some A bc hAG hAP
  have h1 : mergeOneByOne A B C = some L := by simp only [mergeOneByOne, hab, Option.some_bind, hL]
  have h2 : mergeGrouped A B C = some R := by simp only [mergeGrouped, hbc, Option.some_bind, hR]
  exact ⟨L, R, h1, h2, hsame L R h1 h2⟩

/-- Witness of C15, amended: both groupings of `initConfig`,
`exampleAggregate` and `exampleIncoming` return, with the same merged
fields. -/
theorem mergeConfigs_assoc_when_defined_witness :
    ∃ L R, mergeOneByOne initConfig exampleAggregate exampleIncoming = some L ∧
      mergeGrouped initConfig exampleAggregate exampleIncoming = some R ∧ sameMerged L R :=
  (mergeConfigs_assoc_when_defined initConfig exampleAggregate exampleIncoming).2.1
    rfl rfl rfl rfl

/-! ## Claims on `ToStringSlice` -/

theorem Char.eq_of_toNat_eq (x y : Char) (h : x.toNat = y.toNat) : x = y := by
  have := congrArg Char.ofNat h
  simpa using this

theorem lessChars_irrefl (a : List Char) : lessChars a a = false := by
  induction a with
  | nil => rfl
  | cons x xs ih => simp [lessChars, ih]

theorem lessChars_trans (a b c : List Char) (h1 : lessChars a b = true)
    (h2 : lessChars b c = true) : lessChars a c = true := by
  induction a generalizing b c with
  | nil =>
    cases b with
    | nil => simp [lessChars] at h1
    | cons y ys =>
      cases c with
      | nil => simp [lessChars] at h2
      | cons z zs => rfl
  | cons x xs ih =>
    cases b with
    | nil => simp [lessChars] at h1
    | cons y ys =>
      cases c with
      | nil => simp [lessChars] at h2
      | cons z zs =>
        simp only [lessChars] at h1 h2 ⊢
        by_cases hxy : x.toNat < y.toNat
        · by_cases hyz : y.toNat < z.toNat
          · have : x.toNat < z.toNat := by omega
            simp [this]
          · by_cases hzy : z.toNat < y.toNat
            · simp [hyz, hzy] at h2
            · have : x.toNat < z.toNat := by omega
              simp [this]
        · by_cases hyx : y.toNat < x.toNat
          · simp [hxy, hyx] at h1
          · simp only [hxy, hyx, if_false] at h1
            by_cases hyz : y.toNat < z.toNat
            · have : x.toNat < z.toNat := by omega
              simp [this]
            · by_cases hzy : z.toNat < y.toNat
              · simp [hyz, hzy] at h2
              · simp only [hyz, hzy, if_false] at h2
                have h3 : ¬ x.toNat < z.toNat := by omega
                have h4 : ¬ z.toNat < x.toNat := by omega
                simp only [h3, h4, if_false]
                exact ih ys zs h1 h2

theorem lessChars_total (a b : List Char) (h : a ≠ b) :
    lessChars a b = true ∨ lessChars b a = true := by
  induction a generalizing b with
  | nil =>
    cases b with
    | nil => exact absurd rfl h
    | cons y ys => exact Or.inl rfl
  | cons x xs ih =>
    cases b with
    | nil => exact Or.inr rfl
    | cons y ys =>
      simp only [lessChars]
      by_cases hxy : x.toNat < y.toNat
      · simp [hxy]
      · by_cases hyx : y.toNat < x.toNat
        · simp [hyx]
        · have hxe : x = y := Char.eq_of_toNat_eq x y (by omega)
          subst hxe
          simp only [hxy, if_false]
          exact ih ys (fun h2 => h (by rw [h2]))

theorem stringLess_irrefl (a : String) : stringLess a a = false := lessChars_irrefl _

theorem stringLess_trans (a b c : String) (h1 : stringLess a b = true)
    (h2 : stringLess b c = true) : stringLess a c = true :=
  lessChars_trans _ _ _ h1 h2

theorem stringLess_total (a b : String) (h : a ≠ b) :
    stringLess a b = true ∨ stringLess b a = true :=
  lessChars_total _ _ (fun h2 => h (String.ext h2))

theorem insertSorted_perm {α : Type} (less : α → α → Bool) (x : α) (l : List α) :
    (insertSorted less x l).Perm (x :: l) := by
  induction l with
  | nil => exact List.Perm.refl _
  | cons y ys ih =>
    simp only [insertSorted]
    split
    · exact List.Perm.refl _
    · exact ((List.Perm.cons y ih).trans (List.Perm.swap x y ys))

theorem sortSlice_perm {α : Type} (less : α → α → Bool) (l : List α) :
    (sortSlice less l).Perm l := by
  induction l with
  | nil => exact List.Perm.refl _
  | cons x xs ih =>
    exact (insertSorted_perm less x _).trans (List.Perm.cons x ih)

theorem insertSorted_pairwise (x : String) (l : List String) (hx : x ∉ l)
    (hl : l.Pairwise fun a b => stringLess a b = true) :
    (insertSorted stringLess x l).Pairwise fun a b => stringLess a b = true := by
  induction l with
  | nil => simp [insertSorted]
  | cons y ys ih =>
    obtain ⟨hy, hys⟩ := List.pairwise_cons.mp hl
    simp only [insertSorted]
    cases hxy : stringLess x y with
    | true =>
      simp only [if_true]
      refine List.pairwise_cons.mpr ⟨fun z hz => ?_, hl⟩
      rcases List.mem_cons.mp hz with h | h
      · rw [h]; exact hxy
      · exact stringLess_trans x y z hxy (hy z h)
    | false =>
      simp only [Bool.false_eq_true, if_false]
      have hne : x ≠ y := fun h => hx (by rw [h]; exact List.mem_cons_self _ _)
      have hyx : stringLess y x = true := by
        rcases stringLess_total x y hne with h | h
        · rw [hxy] at h; exact absurd h (by simp)
        · exact h
      refine List.pairwise_cons.mpr ⟨fun z hz => ?_,
        ih (fun h => hx (List.mem_cons_of_mem _ h)) hys⟩
      rcases List.mem_cons.mp ((insertSorted_perm stringLess x ys).subset hz) with h | h
      · rw [h]; exact hyx
      · exact hy z h

theorem sortSlice_pairwise (l : List String) (hl : l.Nodup) :
    (sortSlice stringLess l).Pairwise fun a b => stringLess a b = true := by
  induction l with
  | nil => simp [sortSlice]
  | cons x xs ih =>
    obtain ⟨hx, hxs⟩ := List.nodup_cons.mp hl
    exact insertSorted_pairwise x _
      (fun h => hx ((sortSlice_perm stringLess xs).subset h)) (ih hxs)

/-- Two strictly ascending lists with the same members are equal. -/
theorem eq_of_pairwise_stringLess (l1 l2 : List String)
    (h1 : l1.Pairwise fun a b => stringLess a b = true)
    (h2 : l2.Pairwise fun a b => stringLess a b = true)
    (hmem : ∀ k, k ∈ l1 ↔ k ∈ l2) : l1 = l2 := by
  have hirr : ∀ a : String, ¬ stringLess a a = true := fun a h => by
    rw [stringLess_irrefl] at h
    exact absurd h (by simp)
  have hne : ∀ {a b : String}, stringLess a b = true → a ≠ b := by
    intro a b hab heq
    subst heq
    exact hirr a hab
  have hn1 : l1.Nodup := List.Pairwise.imp hne h1
  have hn2 : l2.Nodup := List.Pairwise.imp hne h2
  haveI : IsAntisymm String (fun a b => stringLess a b = true) :=
    ⟨fun a b hab hba => absurd (stringLess_trans a b a hab hba) (hirr a)⟩
  exact List.eq_of_perm_of_sorted ((List.perm_ext_iff_of_nodup hn1 hn2).mpr hmem) h1 h2

theorem collectKeys_eq {V : Type} (slice : List String)
    (l : List (Sigma fun _ : String => V)) :
    collectKeys slice l = slice ++ l.map Sigma.fst := by
  induction l generalizing slice with
  | nil => simp [collectKeys]
  | cons e t ih => simp [collectKeys, ih]

theorem collectKeysIgnoring_eq {V : Type} (ignore : String) (slice : List String)
    (l : List (Sigma fun _ : String => V)) :
    collectKeysIgnoring ignore slice l =
      slice ++ (l.map Sigma.fst).filter (fun k => k ≠ ignore) := by
  induction l generalizing slice with
  | nil => simp [collectKeysIgnoring]
  | cons e t ih =>
    simp only [collectKeysIgnoring, List.map_cons]
    by_cases h : e.1 = ignore
    · simp [h, ih]
    · simp [h, ih, List.filter_cons]

theorem GoMap.range_keys_nodup {V : Type} (m : GoMap V) : (m.range.map Sigma.fst).Nodup := by
  cases m with
  | nil => simp [GoMap.range]
  | alloc s => exact s.keys_nodup

theorem GoMap.mem_range_keys {V : Type} (m : GoMap V) (k : String) :
    k ∈ m.range.map Sigma.fst ↔ (m.get? k).isSome = true := by
  cases m with
  | nil => simp [GoMap.range, GoMap.get?]
  | alloc s =>
    simp only [GoMap.range, GoMap.get?]
    rw [AList.lookup_isSome, AList.mem_keys]
    rfl

theorem ToStringSlice_mem (m : GoMap Int) (k : String) :
    k ∈ ToStringSlice m ↔ (m.get? k).isSome = true := by
  unfold ToStringSlice
  rw [(sortSlice_perm stringLess _).mem_iff, collectKeys_eq, List.nil_append]
  exact GoMap.mem_range_keys m k

theorem ToStringSlice_pairwise (m : GoMap Int) :
    (ToStringSlice m).Pairwise fun a b => stringLess a b = true := by
  unfold ToStringSlice
  rw [collectKeys_eq, List.nil_append]
  exact sortSlice_pairwise _ (GoMap.range_keys_nodup m)

theorem ToStringSliceIgnoring_mem (m : GoMap Int) (x k : String) :
    k ∈ ToStringSliceIgnoring m x ↔ (m.get? k).isSome = true ∧ k ≠ x := by
  unfold ToStringSliceIgnoring
  rw [(sortSlice_perm stringLess _).mem_iff, collectKeysIgnoring_eq, List.nil_append,
    List.mem_filter, GoMap.mem_range_keys]
  simp

theorem ToStringSliceIgnoring_pairwise (m : GoMap Int) (x : String) :
    (ToStringSliceIgnoring m x).Pairwise fun a b => stringLess a b = true := by
  unfold ToStringSliceIgnoring
  rw [collectKeysIgnoring_eq, List.nil_append]
  exact sortSlice_pairwise _ ((GoMap.range_keys_nodup m).filter _)

/-- C18: `ToStringSlice(m)` returns the keys of `m`, each exactly once, in
strictly ascending string order; the result depends only on which keys the
map has, not on the order `range` visits them in. `ToStringSliceIgnoring(m,
x)` returns the same list with the key `x` left out, which is
`ToStringSlice(m)` when `x` is not a key of `m`. -/
theorem ToStringSlice_sorted_keys (m : GoMap Int) :
    (∀ k, k ∈ ToStringSlice m ↔ (m.get? k).isSome = true) ∧
    (ToStringSlice m).Nodup ∧
    ((ToStringSlice m).Pairwise fun a b => stringLess a b = true) ∧
    (∀ m2 : GoMap Int, (∀ k, (m2.get? k).isSome = (m.get? k).isSome) →
      ToStringSlice m2 = ToStringSlice m) ∧
    (∀ x, ToStringSliceIgnoring m x = (ToStringSlice m).filter fun k => k ≠ x) ∧
    (∀ x, m.get? x = none → ToStringSliceIgnoring m x = ToStringSlice m) := by
  have hfilter : ∀ x,
      ToStringSliceIgnoring m x = (ToStringSlice m).filter fun k => k ≠ x := by
    intro x
    refine eq_of_pairwise_stringLess _ _ (ToStringSliceIgnoring_pairwise m x)
      ((ToStringSlice_pairwise m).filter _) (fun k => ?_)
    rw [ToStringSliceIgnoring_mem, List.mem_filter, ToStringSlice_mem]
    simp
  refine ⟨ToStringSlice_mem m, ?_, ToStringSlice_pairwise m, fun m2 h => ?_, hfilter,
    fun x hx => ?_⟩
  · unfold ToStringSlice
    rw [(sortSlice_perm stringLess _).nodup_iff, collectKeys_eq, List.nil_append]
    exact GoMap.range_keys_nodup m
  · refine eq_of_pairwise_stringLess _ _ (ToStringSlice_pairwise m2)
      (ToStringSlice_pairwise m) (fun k => ?_)
    rw [ToStringSlice_mem, ToStringSlice_mem, h k]
  · rw [hfilter x, List.filter_eq_self]
    intro k hk
    have h1 := (ToStringSlice_mem m k).mp hk
    have hne : k ≠ x := fun h2 => by
      rw [h2, hx] at h1
      simp at h1
    simpa using hne

/-- Witness of C18: a map ranged over as `b`, `c`, `a`, or in another order,
gives `a`, `b`, `c`; ignoring `b` gives `a`, `c`. -/
theorem ToStringSlice_sorted_keys_witness :
    ToStringSlice exampleLevels = ["a", "b", "c"] ∧
    ToStringSlice exampleLevelsReordered = ToStringSlice exampleLevels ∧
    ToStringSliceIgnoring exampleLevels "b" = ["a", "c"] ∧
    ToStringSliceIgnoring exampleLevels "z" = ToStringSlice exampleLevels := by
  obtain ⟨-, -, -, horder, hfilter, hsame⟩ := ToStringSlice_sorted_keys exampleLevels
  refine ⟨by decide, horder exampleLevelsReordered (fun k => ?_), ?_, hsame "z" (by decide)⟩
  · simp only [exampleLevelsReordered, exampleLevels, GoMap.get?]
    rw [Bool.eq_iff_iff]
    simp only [AList.lookup_isSome, AList.mem_insert]
    simp only [AList.mem_keys, AList.keys_singleton, List.mem_singleton]
    tauto
  · rw [hfilter "b"]
    decide

/-! ## Claims on the ambiguity of the dry-run messages -/

/-- A text without quote followed by a quote can be read back in one way
only. -/
theorem append_quote_inj (u u2 r r2 : List Char) (hu : quoteChar ∉ u) (hu2 : quoteChar ∉ u2)
    (h : u ++ quoteChar :: r = u2 ++ quoteChar :: r2) : u = u2 ∧ r = r2 := by
  induction u generalizing u2 with
  | nil =>
    cases u2 with
    | nil => simpa using h
    | cons y ys =>
      simp only [List.nil_append, List.cons_append, List.cons.injEq] at h
      exact absurd (h.1 ▸ List.mem_cons_self _ _) hu2
  | cons x xs ih =>
    cases u2 with
    | nil =>
      simp only [List.nil_append, List.cons_append, List.cons.injEq] at h
      exact absurd (h.1 ▸ List.mem_cons_self _ _) hu
    | cons y ys =>
      simp only [List.cons_append, List.cons.injEq] at h
      obtain ⟨h1, h2⟩ := ih ys (fun hx => hu (List.mem_cons_of_mem _ hx))
        (fun hy => hu2 (List.mem_cons_of_mem _ hy)) h.2
      exact ⟨by rw [h.1, h1], h2⟩

/-- Two messages `pre 'u' mid 'g' post` with quote-free `u` are equal only
for equal `u` and equal remainders. -/
theorem first_argument_inj (u u2 : String) (r r2 : List Char)
    (hu : noQuote u) (hu2 : noQuote u2)
    (h : u.data ++ quoteChar :: r = u2.data ++ quoteChar :: r2) : u = u2 ∧ r = r2 := by
  obtain ⟨h1, h2⟩ := append_quote_inj _ _ _ _ hu hu2 h
  exact ⟨String.ext h1, h2⟩

/-- C19: the dry-run messages do not identify their arguments uniquely:
`RemoveGroupMembership` passes the same string to the sink for the username
`a' from 'b` with the group `c` and for the username `a` with the group
`b' from 'c`. When no string argument contains a single quote, the message of
each of the five operations determines its string arguments (and the text of
its level). -/
theorem DryRunAPIClient.messages_ambiguous {L : Type} [Stringer L] :
    (("a' from 'b", "c") ≠ (("a", "b' from 'c") : String × String) ∧
      RemoveGroupMembership logging "a' from 'b" "c" [] =
        RemoveGroupMembership logging "a" "b' from 'c" [] ∧
      RemoveGroupMembership logging "a' from 'b" "c" [] =
        some (["remove 'a' from 'b' from 'c'"], none)) ∧
    (∀ (u g u2 g2 : String) (l l2 : L),
      noQuote u → noQuote g → noQuote u2 → noQuote g2 →
      AddGroupMembership logging u g l [] = AddGroupMembership logging u2 g2 l2 [] →
      u = u2 ∧ g = g2 ∧ Stringer.String l = Stringer.String l2) ∧
    (∀ (u g u2 g2 : String) (l l2 : L),
      noQuote u → noQuote g → noQuote u2 → noQuote g2 →
      ChangeGroupMembership logging u g l [] = ChangeGroupMembership logging u2 g2 l2 [] →
      u = u2 ∧ g = g2 ∧ Stringer.String l = Stringer.String l2) ∧
    (∀ u g u2 g2 : String,
      noQuote u → noQuote g → noQuote u2 → noQuote g2 →
      RemoveGroupMembership logging u g [] = RemoveGroupMembership logging u2 g2 [] →
      u = u2 ∧ g = g2) ∧
    (∀ (p g p2 g2 : String) (l l2 : L),
      noQuote p → noQuote g → noQuote p2 → noQuote g2 →
      AddProjectSharing logging p g l [] = AddProjectSharing logging p2 g2 l2 [] →
      p = p2 ∧ g = g2 ∧ Stringer.String l = Stringer.String l2) ∧
    (∀ p g p2 g2 : String,
      noQuote p → noQuote g → noQuote p2 → noQuote g2 →
      RemoveProjectSharing logging p g [] = RemoveProjectSharing logging p2 g2 [] →
      p = p2 ∧ g = g2) := by
  refine ⟨⟨by decide, by decide, by decide⟩, ?_, ?_, ?_, ?_, ?_⟩
  · intro u g u2 g2 l l2 hu hg hu2 hg2 h
    simp only [AddGroupMembership, record, logging, Sprintf_add, List.nil_append,
      Option.some.injEq, Prod.mk.injEq, List.cons.injEq, and_true] at h
    have hd := congrArg String.data h
    simp at hd
    obtain ⟨h1, h2⟩ := first_argument_inj u u2 _ _ hu hu2 hd
    simp only [List.cons.injEq, true_and] at h2
    obtain ⟨h3, h4⟩ := first_argument_inj g g2 _ _ hg hg2 h2
    simp at h4
    exact ⟨h1, h3, String.ext h4⟩
  · intro u g u2 g2 l l2 hu hg hu2 hg2 h
    simp only [ChangeGroupMembership, record, logging, Sprintf_change, List.nil_append,
      Option.some.injEq, Prod.mk.injEq, List.cons.injEq, and_true] at h
    have hd := congrArg String.data h
    simp at hd
    obtain ⟨h1, h2⟩ := first_argument_inj u u2 _ _ hu hu2 hd
    simp only [List.cons.injEq, true_and] at h2
    obtain ⟨h3, h4⟩ := first_argument_inj g g2 _ _ hg hg2 h2
    simp at h4
    exact ⟨h1, h3, String.ext h4⟩
  · intro u g u2 g2 hu hg hu2 hg2 h
    simp only [RemoveGroupMembership, record, logging, Sprintf_remove, List.nil_append,
      Option.some.injEq, Prod.mk.injEq, List.cons.injEq, and_true] at h
    have hd := congrArg String.data h
    simp at hd
    obtain ⟨h1, h2⟩ := first_argument_inj u u2 _ _ hu hu2 hd
    simp at h2
    exact ⟨h1, String.ext h2⟩
  · intro p g p2 g2 l l2 hp hg hp2 hg2 h
    simp only [AddProjectSharing, record, logging, Sprintf_share, List.nil_append,
      Option.some.injEq, Prod.mk.injEq, List.cons.injEq, and_true] at h
    have hd := congrArg String.data h
    simp at hd
    obtain ⟨h1, h2⟩ := first_argument_inj p p2 _ _ hp hp2 hd
    simp only [List.cons.injEq, true_and] at h2
    obtain ⟨h3, h4⟩ := first_argument_inj g g2 _ _ hg hg2 h2
    simp at h4
    exact ⟨h1, h3, String.ext h4⟩
  · intro p g p2 g2 hp hg hp2 hg2 h
    simp only [RemoveProjectSharing, record, logging, Sprintf_unshare, List.nil_append,
      Option.some.injEq, Prod.mk.injEq, List.cons.injEq, and_true] at h
    have hd := congrArg String.data h
    simp at hd
    obtain ⟨h1, h2⟩ := first_argument_inj p p2 _ _ hp hp2 hd
    simp at h2
    exact ⟨h1, String.ext h2⟩

/-- Witness of C19: without quotes in the arguments, revoking `alice` from
`team-x` and from `team-y` records different messages. -/
theorem DryRunAPIClient.messages_ambiguous_witness :
    RemoveGroupMembership logging "alice" "team-x" [] ≠
      RemoveGroupMembership logging "alice" "team-y" [] := by
  intro h
  have h1 := (messages_ambiguous (L := Level)).2.2.2.1 "alice" "team-x" "alice" "team-y"
    (by unfold noQuote; decide) (by unfold noQuote; decide) (by unfold noQuote; decide)
    (by unfold noQuote; decide) h
  exact absurd h1.2 (by decide)

/-! ## Lemmas on strict decoding -/

/-- The loop of `mappingStruct` only adds type errors. -/
theorem mappingStruct_terrors_append {T : Type} (strict : Bool) (info : StructInfo T)
    (fields : List (Nat × Option String × Node)) (done : List String) (out : T)
    (terrors : List String) :
    ∃ extra, (mappingStruct strict info fields done out terrors).2 = terrors ++ extra := by
  induction fields generalizing done out terrors with
  | nil => exact ⟨[], by simp [mappingStruct]⟩
  | cons fld rest ih =>
    obtain ⟨line, key, value⟩ := fld
    cases key with
    | none =>
      simp only [mappingStruct]
      obtain ⟨extra, h⟩ := ih done (info.merge value out).value
        (terrors ++ (info.merge value out).terrors)
      exact ⟨_, by rw [h, List.append_assoc]⟩
    | some name =>
      simp only [mappingStruct]
      cases hfind : info.fields.find? (fun fi => decide (fi.key = name)) with
      | none =>
        cases strict with
        | true =>
          simp only [if_true]
          obtain ⟨extra, h⟩ := ih done out (terrors ++ [fieldNotFound line name info.typeName])
          exact ⟨_, by rw [h, List.append_assoc]⟩
        | false =>
          simp only [Bool.false_eq_true, if_false]
          exact ih done out terrors
      | some fi =>
        simp only
        split
        · obtain ⟨extra, h⟩ :=
            ih done out (terrors ++ [fieldAlreadySet line name info.typeName])
          exact ⟨_, by rw [h, List.append_assoc]⟩
        · obtain ⟨extra, h⟩ := ih (name :: done) (fi.decode value out).value
            (terrors ++ (fi.decode value out).terrors)
          exact ⟨_, by rw [h, List.append_assoc]⟩

theorem mappingStruct_mem_of_mem {T : Type} (strict : Bool) (info : StructInfo T)
    (fields : List (Nat × Option String × Node)) (done : List String) (out : T)
    (terrors : List String) (e : String) (he : e ∈ terrors) :
    e ∈ (mappingStruct strict info fields done out terrors).2 := by
  obtain ⟨extra, h⟩ := mappingStruct_terrors_append strict info fields done out terrors
  rw [h]
  exact List.mem_append_left _ he

/-- In strict mode a key that names no field of the struct leaves its
`field not found` type error. -/
theorem mappingStruct_not_found {T : Type} (info : StructInfo T)
    (fields : List (Nat × Option String × Node)) (done : List String) (out : T)
    (terrors : List String) (line : Nat) (k : String) (v : Node)
    (hmem : (line, some k, v) ∈ fields) (hk : k ∉ info.fields.map fun fi => fi.key) :
    fieldNotFound line k info.typeName ∈ (mappingStruct true info fields done out terrors).2 := by
  have hnone : info.fields.find? (fun fi => decide (fi.key = k)) = none := by
    rw [List.find?_eq_none]
    intro fi hfi hkey
    exact hk (List.mem_map.mpr ⟨fi, hfi, of_decide_eq_true hkey⟩)
  induction fields generalizing done out terrors with
  | nil => simp at hmem
  | cons fld rest ih =>
    rcases List.mem_cons.mp hmem with h | h
    · subst h
      simp only [mappingStruct, hnone, if_true]
      exact mappingStruct_mem_of_mem _ _ _ _ _ _ _ (by simp)
    · obtain ⟨line2, key2, value2⟩ := fld
      cases key2 with
      | none =>
        simp only [mappingStruct]
        exact ih _ _ _ h
      | some name =>
        simp only [mappingStruct]
        cases info.fields.find? (fun fi => decide (fi.key = name)) with
        | none =>
          simp only [if_true]
          exact ih _ _ _ h
        | some fi =>
          simp only
          split
          · exact ih _ _ _ h
          · exact ih _ _ _ h

/-- In strict mode a key whose value cannot be decoded into its field without
type error leaves a type error, also when the key is met a second time. -/
theorem mappingStruct_field_error {T : Type} (info : StructInfo T)
    (fields : List (Nat × Option String × Node)) (done : List String) (out : T)
    (terrors : List String) (line : Nat) (k : String) (v : Node)
    (hmem : (line, some k, v) ∈ fields)
    (hbad : ∀ fi ∈ info.fields, fi.key = k → ∀ o, (fi.decode v o).terrors ≠ []) :
    (mappingStruct true info fields done out terrors).2 ≠ [] := by
  have hgrow : ∀ (rest : List (Nat × Option String × Node)) (done : List String) (o : T)
      (errs : List String), errs ≠ [] → (mappingStruct true info rest done o errs).2 ≠ [] := by
    intro rest done o errs herrs
    obtain ⟨extra, h⟩ := mappingStruct_terrors_append true info rest done o errs
    rw [h]
    simp [herrs]
  induction fields generalizing done out terrors with
  | nil => simp at hmem
  | cons fld rest ih =>
    rcases List.mem_cons.mp hmem with h | h
    · subst h
      simp only [mappingStruct]
      cases hfind : info.fields.find? (fun fi => decide (fi.key = k)) with
      | none =>
        simp only [if_true]
        exact hgrow _ _ _ _ (by simp)
      | some fi =>
        simp only
        split
        · exact hgrow _ _ _ _ (by simp)
        · have hfi : fi ∈ info.fields := List.mem_of_find?_eq_some hfind
          have hdec : decide (fi.key = k) = true :=
            List.find?_some (p := fun x : FieldInfo T => decide (x.key = k)) hfind
          have hkey : fi.key = k := of_decide_eq_true hdec
          exact hgrow _ _ _ _ (by simp [hbad fi hfi hkey out])
    · obtain ⟨line2, key2, value2⟩ := fld
      cases key2 with
      | none =>
        simp only [mappingStruct]
        exact ih _ _ _ h
      | some name =>
        simp only [mappingStruct]
        cases info.fields.find? (fun fi => decide (fi.key = name)) with
        | none =>
          simp only [if_true]
          exact ih _ _ _ h
        | some fi =>
          simp only
          split
          · exact ih _ _ _ h
          · exact ih _ _ _ h

/-- A node with a scalar key is a mapping holding a field with that key. -/
theorem Node.exists_field_of_mem_keys (n : Node) (k : String) (hk : k ∈ n.keys) :
    ∃ fields line v, n = .mapping fields ∧ (line, some k, v) ∈ fields := by
  cases n with
  | scalar value => simp [Node.keys] at hk
  | sequence items => simp [Node.keys] at hk
  | mapping fields =>
    simp only [Node.keys, List.mem_filterMap] at hk
    obtain ⟨⟨line, key, v⟩, hmem, hkey⟩ := hk
    simp only at hkey
    subst hkey
    exact ⟨fields, line, v, rfl, hmem⟩

/-- In strict mode a node with a key that names no field of the struct is
decoded with a type error. -/
theorem decodeStruct_unknown_key {T : Type} (info : StructInfo T) (n : Node) (k : String)
    (hk : k ∈ n.keys) (hunknown : k ∉ info.fields.map fun fi => fi.key) (out : T) :
    (decodeStruct true info n out).terrors ≠ [] := by
  obtain ⟨fields, line, v, hn, hmem⟩ := Node.exists_field_of_mem_keys n k hk
  subst hn
  simp only [decodeStruct]
  exact List.ne_nil_of_mem (mappingStruct_not_found info fields [] out [] line k v hmem hunknown)

theorem decodeBotItems_terrors_append {Acls : Type} (strict : Bool) (lib : YamlLib Acls)
    (items : List Node) (bots : List Bot) (terrors : List String) :
    ∃ extra, (decodeBotItems strict lib items bots terrors).2 = terrors ++ extra := by
  induction items generalizing bots terrors with
  | nil => exact ⟨[], by simp [decodeBotItems]⟩
  | cons item rest ih =>
    simp only [decodeBotItems]
    obtain ⟨extra, h⟩ := ih
      (if (decodeStruct strict (botInfo lib) item ⟨"", ""⟩).good = true then
        bots ++ [(decodeStruct strict (botInfo lib) item ⟨"", ""⟩).value] else bots)
      (terrors ++ (decodeStruct strict (botInfo lib) item ⟨"", ""⟩).terrors)
    exact ⟨_, by rw [h, List.append_assoc]⟩

/-- In strict mode a sequence with an item that has a key outside `botKeys`
is decoded into `[]Bot` with a type error. -/
theorem decodeBots_unknown_key {Acls : Type} (lib : YamlLib Acls) (n : Node) (item : Node)
    (k : String) (hitem : item ∈ n.items) (hk : k ∈ item.keys) (hunknown : k ∉ botKeys)
    (current : List Bot) : (decodeBots true lib n current).terrors ≠ [] := by
  cases n with
  | scalar value => simp [Node.items] at hitem
  | mapping fields => simp [Node.items] at hitem
  | sequence items =>
    simp only [Node.items] at hitem
    simp only [decodeBots]
    have hgen : ∀ (bots : List Bot) (terrors : List String),
        (decodeBotItems true lib items bots terrors).2 ≠ [] := by
      induction items with
      | nil => simp at hitem
      | cons x rest ih =>
        intro bots terrors
        simp only [decodeBotItems]
        rcases List.mem_cons.mp hitem with h | h
        · subst h
          have herr := decodeStruct_unknown_key (botInfo lib) item k hk hunknown ⟨"", ""⟩
          obtain ⟨extra, hx⟩ := decodeBotItems_terrors_append true lib rest
            (if (decodeStruct true (botInfo lib) item ⟨"", ""⟩).good = true then
              bots ++ [(decodeStruct true (botInfo lib) item ⟨"", ""⟩).value] else bots)
            (terrors ++ (decodeStruct true (botInfo lib) item ⟨"", ""⟩).terrors)
          rw [hx]
          simp [herr]
        · exact ih h _ _
    exact hgen [] []

/-- In strict mode a mapping with an unrecognized key is decoded into
`internal.Config` with a type error, and each top-level key outside
`configKeys` leaves its `field not found` error. -/
theorem decodeConfig_unknown_key {Acls : Type} (lib : YamlLib Acls)
    (fields : List (Nat × Option String × Node)) (hkey : hasUnknownKey fields)
    (out : Config Acls) :
    (decodeStruct true (configInfo true lib) (.mapping fields) out).terrors ≠ [] ∧
    (∀ line k v, (line, some k, v) ∈ fields → k ∉ configKeys →
      fieldNotFound line k "internal.Config" ∈
        (decodeStruct true (configInfo true lib) (.mapping fields) out).terrors) := by
  have hnf : ∀ line k v, (line, some k, v) ∈ fields → k ∉ configKeys →
      fieldNotFound line k "internal.Config" ∈
        (decodeStruct true (configInfo true lib) (.mapping fields) out).terrors := by
    intro line k v hmem hk
    simp only [decodeStruct]
    exact mappingStruct_not_found (configInfo true lib) fields [] out [] line k v hmem hk
  refine ⟨?_, hnf⟩
  rcases hkey with ⟨⟨line, key, v⟩, hmem, k, hk1, hk2⟩ | ⟨⟨line, key, v⟩, hmem, hk1, k, hk, hk2⟩ |
    ⟨⟨line, key, v⟩, hmem, hk1, item, hitem, k, hk, hk2⟩
  · simp only at hk1
    subst hk1
    exact List.ne_nil_of_mem (hnf line k v hmem hk2)
  · simp only at hk1 hk
    subst hk1
    simp only [decodeStruct]
    refine mappingStruct_field_error (configInfo true lib) fields [] out [] line "users" v
      hmem (fun fi hfi hfk o => ?_)
    simp only [configInfo, List.mem_cons, List.mem_singleton, List.not_mem_nil, or_false] at hfi
    rcases hfi with h | h | h | h | h <;> subst h <;> simp at hfk
    exact decodeStruct_unknown_key (usersInfo lib) v k hk hk2 o.Users
  · simp only at hk1 hitem
    subst hk1
    simp only [decodeStruct]
    refine mappingStruct_field_error (configInfo true lib) fields [] out [] line "bots" v
      hmem (fun fi hfi hfk o => ?_)
    simp only [configInfo, List.mem_cons, List.mem_singleton, List.not_mem_nil, or_false] at hfi
    rcases hfi with h | h | h | h | h <;> subst h <;> simp at hfk
    exact decodeBots_unknown_key lib v item k hitem hk hk2 o.Bots

/-! ## Claims on strict decoding -/

/-- What the strict decoder returns for a document with an unrecognized key:
a `*TypeError` holding at least one type error, among them `field not found`
for every top-level key outside `configKeys`. -/
theorem yamlUnmarshal_unknown_key {Acls : Type} (lib : YamlLib Acls) (c : String)
    (fields : List (Nat × Option String × Node))
    (hparse : lib.parse c = .ok (some (.mapping fields))) (hkey : hasUnknownKey fields) :
    ∃ errs, errs ≠ [] ∧
      (∀ line k v, (line, some k, v) ∈ fields → k ∉ configKeys →
        fieldNotFound line k "internal.Config" ∈ errs) ∧
      (yamlUnmarshal lib true c).2 = some (typeErrorText errs) := by
  obtain ⟨hne, hnf⟩ := decodeConfig_unknown_key lib fields hkey Config.zero
  refine ⟨_, hne, hnf, ?_⟩
  simp only [yamlUnmarshal, hparse, hne, if_false]

set_option maxRecDepth 100000 in
/-- C14 fails on the code as stated: `stale.yml` holds the unrecognized key
`colour`, and with checksum verification on, its sidecar holding another
digest, loading it fails with the checksum error, not with a parse error. -/
theorem loadFile_unknown_key_checksum_first :
    exampleYamlEnv.ReadFile "stale.yml" = .ok "colour: blue" ∧
    exampleYaml.parse "colour: blue" =
      .ok (some (.mapping [(0, some "colour", .scalar "blue")])) ∧
    hasUnknownKey [(0, some "colour", .scalar "blue")] ∧
    (loadFile exampleYamlEnv "stale.yml" true).err =
      some ("configuration file calculated md5 '075d0ec4035f52ffe38c14b8760c9ace'" ++
        " does not match the provided md5 '9e82319531a079ec46607f304bdc281f\n'") ∧
    ¬ Contains ("configuration file calculated md5 '075d0ec4035f52ffe38c14b8760c9ace'" ++
        " does not match the provided md5 '9e82319531a079ec46607f304bdc281f\n'")
      "failed to unmarshal state file" := by
  refine ⟨rfl, rfl, Or.inl ⟨_, List.mem_singleton.mpr rfl, "colour", rfl, by decide⟩,
    by decide, by decide⟩

/-- C14, amended: loading a readable file whose content has an unrecognized
top-level key, or an unrecognized key under `users` or in a bot, always
fails. When checksum verification is off or the checksum check passes it
fails with the parse error `failed to unmarshal state file <path>: ` followed
by the decoder's type errors, which name every unrecognized top-level key;
when verification is on and the check fails it fails with the checksum error.
So `LoadConfig` fails when the root or a listed file is such a file. -/
theorem loadFile_unknown_key_fails {Acls : Type} (env : Env Acls) (lib : YamlLib Acls)
    (hdec : env.UnmarshalStrict = yamlUnmarshal lib true) (f c : String)
    (fields : List (Nat × Option String × Node)) (hfile : env.ReadFile f = .ok c)
    (hparse : lib.parse c = .ok (some (.mapping fields))) (hkey : hasUnknownKey fields) :
    ∃ errs, errs ≠ [] ∧
      (∀ line k v, (line, some k, v) ∈ fields → k ∉ configKeys →
        fieldNotFound line k "internal.Config" ∈ errs) ∧
      (loadFile env f false).err =
        some ("failed to unmarshal state file " ++ f ++ ": " ++ typeErrorText errs) ∧
      ((checksumBlock env f c).2 = none →
        (loadFile env f true).err =
          some ("failed to unmarshal state file " ++ f ++ ": " ++ typeErrorText errs)) ∧
      (∀ e, (checksumBlock env f c).2 = some e → (loadFile env f true).err = some e) ∧
      (∀ chk, (loadFile env f chk).err ≠ none) ∧
      (∀ chk root, (f = root ∨ f ∈ (loadFile env root chk).config.Files) →
        ∃ r, LoadConfig env root chk = some r ∧ r.err ≠ none) := by
  obtain ⟨errs, hne, hnf, he0⟩ := yamlUnmarshal_unknown_key lib c fields hparse hkey
  have he : (env.UnmarshalStrict c).2 = some (typeErrorText errs) := by rw [hdec]; exact he0
  have hoff : (loadFile env f false).err =
      some ("failed to unmarshal state file " ++ f ++ ": " ++ typeErrorText errs) := by
    rw [loadFile_unchecked env f c hfile, he]
    rfl
  have hon : (checksumBlock env f c).2 = none → (loadFile env f true).err =
      some ("failed to unmarshal state file " ++ f ++ ": " ++ typeErrorText errs) := by
    intro hb
    simp only [loadFile, hfile, if_true, hb, he, Errorf, Sprintf_unmarshal]
  have hchk : ∀ e, (checksumBlock env f c).2 = some e → (loadFile env f true).err = some e := by
    intro e hb
    simp only [loadFile, hfile, if_true, hb]
  have hfail : ∀ chk, (loadFile env f chk).err ≠ none := by
    intro chk
    cases chk with
    | false => simp [hoff]
    | true =>
      cases hb : (checksumBlock env f c).2 with
      | none => simp [hon hb]
      | some e1 => simp [hchk e1 hb]
  refine ⟨errs, hne, hnf, hoff, hon, hchk, hfail, fun chk root hroot => ?_⟩
  obtain ⟨r, hr, hiff⟩ := LoadConfig_fails_iff env root chk
  refine ⟨r, hr, hiff.mpr ?_⟩
  rcases hroot with h | h
  · exact Or.inl (h ▸ hfail chk)
  · exact Or.inr ⟨f, h, hfail chk⟩

set_option maxRecDepth 100000 in
/-- Witness of C14, amended: `strict.yml` holds the key `colour` and its
sidecar holds its digest; with verification on it fails to load with the
parse error naming `colour`, and so does `LoadConfig` on it. The same text
goes through the decoder when strict mode is off; the key `admin` under
`users` is rejected too, and a file with known keys only is not. -/
theorem loadFile_unknown_key_fails_witness :
    (loadFile exampleYamlEnv "strict.yml" true).err =
      some ("failed to unmarshal state file strict.yml: yaml: unmarshal errors:\n" ++
        "  line 1: field colour not found in type internal.Config") ∧
    (∃ r, LoadConfig exampleYamlEnv "strict.yml" true = some r ∧ r.err ≠ none) ∧
    (yamlUnmarshal exampleYaml false "colour: blue").2 = none ∧
    (yamlUnmarshal exampleYaml true "users: {admin: [root]}").2 =
      some "yaml: unmarshal errors:\n  line 1: field admin not found in type internal.Users" ∧
    (yamlUnmarshal exampleYaml true "files: [a.yml, b.yml]").2 = none := by
  obtain ⟨errs, -, -, -, -, -, -, hload⟩ :=
    loadFile_unknown_key_fails exampleYamlEnv exampleYaml rfl "strict.yml" "colour: blue"
      [(0, some "colour", .scalar "blue")] rfl rfl
      (Or.inl ⟨_, List.mem_singleton.mpr rfl, "colour", rfl, by decide⟩)
  exact ⟨by decide, hload true "strict.yml" (Or.inl rfl), by decide, by decide, by decide⟩

end Hurrdurr
